import Mathlib

/-!
# mountainplots: elevation raster to radial elevation-histogram image

Shallow embedding of `src/mountainplots.cpp`.

Numeric conventions of the embedding.

* C++ `float`/`double` values are elements of an ordered field `α` with a
  floor function (`ℚ` for evaluation, `ℝ` for the theorems): exact arithmetic,
  no rounding, no NaN, no infinities.
* C++ `int` values are `Int` (indices, `ox`, `oy`) or `Nat` (the raster
  dimensions and the loop counters, which are never negative); no wrap-around.
* `std::sqrt`, `std::pow` with a non-integer exponent, `std::tan` and the
  constant `pi()` are parameters of the definitions; the theorems instantiate
  them with `Real.sqrt`, `Real.rpow`, `Real.tan` and `Real.pi`.
* `std::pow(x, 2)` and `std::pow(x, 6)` are the monoid powers `x ^ 2`, `x ^ 6`.
-/

namespace MountainPlots

section Embedding

variable {α : Type} [LinearOrderedField α] [FloorRing α]

/-- The C++ conversion `(int)x` of a floating value: truncation toward zero. -/
def toInt (x : α) : Int :=
  if 0 ≤ x then Int.floor x else Int.ceil x

/-- The C library `std::fmod(x, y)`: `x - n*y` with `n` the quotient `x/y` truncated
toward zero. -/
def fmod (x y : α) : α :=
  x - ((toInt (x / y) : Int) : α) * y

/-- A counted loop `for (int i = 0; i < n; i++) s = body(i, s);`. -/
def forLoop {σ : Type} (n : Nat) (body : Nat → σ → σ) (s : σ) : σ :=
  match n with
  | 0 => s
  | k + 1 => body k (forLoop k body s)

/-! ## findIntersection (lines 20-70) -/

/-- Lines 20-70, `findIntersection`: the pair `(x_intersect, y_intersect)` left in the two
output references at the `return` that is taken. `tan` is `std::tan` and `pi` is the constant
`pi()`. Each source block `if (angle test) { compute; if (range test) return; }` is one
conditional on `angle test ∧ range test`: a block whose range test fails leaves only values
that the block returning later overwrites. -/
def findIntersection (tan : α → α) (pi : α) (px py alpha nx ny : α) : α × α :=
  let alpharad := fmod alpha 360 * pi / 180
  -- right boundary
  let yr := py + tan alpharad * (nx - px)
  if (alpharad < pi / 2 ∨ alpharad > 3 * pi / 2) ∧ (yr ≥ 0 ∧ yr ≤ ny) then (nx, yr)
  else
    -- left boundary
    let yl := py - tan alpharad * px
    if (alpharad > pi / 2 ∧ alpharad < 3 * pi / 2) ∧ (yl ≥ 0 ∧ yl ≤ ny) then (0, yl)
    else
      -- top boundary
      let xt := px + (ny - py) / tan alpharad
      if (alpharad > 0 ∧ alpharad < pi) ∧ (xt ≥ 0 ∧ xt ≤ nx) then (xt, ny)
      else
        -- bottom boundary
        let xb := px - py / tan alpharad
        if (alpharad > pi ∧ alpharad < 2 * pi) ∧ (xb ≥ 0 ∧ xb ≤ nx) then (xb, 0)
        else (px, py)

/-- The point `r` lies on the boundary of the box `[0,nx] x [0,ny]`: on the left or right edge
with its ordinate in range, or on the bottom or top edge with its abscissa in range. -/
def OnBoundary (nx ny : α) (r : α × α) : Prop :=
  ((r.1 = 0 ∨ r.1 = nx) ∧ 0 ≤ r.2 ∧ r.2 ≤ ny) ∨ ((r.2 = 0 ∨ r.2 = ny) ∧ 0 ≤ r.1 ∧ r.1 ≤ nx)

/-- The point `r` lies on the open ray from `(px, py)` with direction `(c, s)`. -/
def OnRay (px py c s : α) (r : α × α) : Prop :=
  ∃ t : α, 0 < t ∧ r.1 = px + t * c ∧ r.2 = py + t * s

/-! ## Peak locator (lines 131-143) -/

/-- The three variables `maxalt`, `mx`, `my` of lines 132-134. -/
structure Peak (α : Type) where
  maxalt : α
  mx : Nat
  my : Nat

/-- Lines 137-141: the body of the peak search at cell `(ix, iy)`. -/
def peakStep (dem : Nat → Nat → α) (ix iy : Nat) (p : Peak α) : Peak α :=
  if dem ix iy > p.maxalt then ⟨dem ix iy, ix, iy⟩ else p

/-- Lines 132-143: the peak search, `ix` outer and `iy` inner, from `maxalt = 0`,
`mx = my = 0`. -/
def peakLocator (nx ny : Nat) (dem : Nat → Nat → α) : Peak α :=
  forLoop nx (fun ix p => forLoop ny (fun iy q => peakStep dem ix iy q) p) ⟨0, 0, 0⟩

/-- The invariant of the peak search when the outer index is `k` and the inner index is `j`
(the cells visited so far are those with `ix < k`, and those with `ix = k` and `iy < j`):
`maxalt` bounds every visited sample and is non-negative; while it is `0` the indices are still
`(0, 0)`; once it is positive it is the sample at `(mx, my)`, a visited cell that precedes every
other visited cell holding the same value. -/
def PeakInv (dem : Nat → Nat → α) (ny k j : Nat) (p : Peak α) : Prop :=
  (∀ ix iy, ((ix < k ∧ iy < ny) ∨ (ix = k ∧ iy < j)) → dem ix iy ≤ p.maxalt) ∧
  0 ≤ p.maxalt ∧
  (p.maxalt = 0 → p.mx = 0 ∧ p.my = 0) ∧
  (0 < p.maxalt →
    ((p.mx < k ∧ p.my < ny) ∨ (p.mx = k ∧ p.my < j)) ∧ dem p.mx p.my = p.maxalt ∧
    ∀ ix iy, ((ix < k ∧ iy < ny) ∨ (ix = k ∧ iy < j)) → dem ix iy = p.maxalt →
      (p.mx < ix ∨ (p.mx = ix ∧ p.my ≤ iy)))

/-! ## Output geometry resolver (lines 146-180) -/

/-- Lines 147-148: `maxhorizsq`, with the integer divisions `nx/2`, `ny/2`. -/
def maxhorizsq (nx ny mx my : Nat) : α :=
  (if mx > nx / 2 then (mx : α) else (((nx : Int) - (mx : Int) : Int) : α)) ^ 2
    + (if my > ny / 2 then (my : α) else (((ny : Int) - (my : Int) : Int) : α)) ^ 2

/-- Line 149: `maxhoriz = std::sqrt(maxhorizsq)`. -/
def maxhoriz (sqrt : α → α) (nx ny mx my : Nat) : α :=
  sqrt (maxhorizsq nx ny mx my)

/-- The command-line variables `ox`, `oy`, `elevs[0]`, `elevs[1]`, `mpp` (lines 89-98). -/
structure Config (α : Type) where
  ox : Int
  oy : Int
  elevs0 : α
  elevs1 : α
  mpp : α

/-- The initial values of lines 89-97: `ox = 0`, `oy = 0`, `elevs = {0, -1}`, `mpp = -1`. -/
def defaultConfig : Config α :=
  ⟨0, 0, 0, -1, -1⟩

/-- Lines 153-155: the output width. -/
def resolveOx (c : Config α) (mh : α) : Config α :=
  if c.ox = 0 then { c with ox := toInt (mh + 1 / 2) } else c

/-- Line 158: `if (mpp <= 0.f) mpp = 1.f;`. -/
def resolveMpp (c : Config α) : Config α :=
  if c.mpp ≤ 0 then { c with mpp := 1 } else c

/-- Lines 161-180: the output height and the elevation bounds. -/
def resolveOy (c : Config α) : Config α :=
  if c.oy = 0 then
    if c.elevs1 > 0 then
      { c with oy := toInt (c.elevs1 / c.mpp + 1 / 2) }
    else
      { c with elevs1 := 5000, oy := toInt (5000 / c.mpp + 1 / 2) }
  else
    if c.elevs1 > 0 then
      { c with mpp := c.elevs1 / (c.oy : α) }
    else
      { c with elevs0 := 0, elevs1 := c.mpp * (c.oy : α) }

/-- Lines 153-180 in sequence. -/
def resolveGeometry (c : Config α) (mh : α) : Config α :=
  resolveOy (resolveMpp (resolveOx c mh))

/-! ## Histogram renderer (lines 188-232) -/

/-- The per-cell locals of lines 203-226. -/
structure Scatter (α : Type) where
  pfx : α
  pfy : α
  px : Int
  py : Int
  toadd : α
  fracx : α
  fracy : α

/-- Lines 203-226 for the source cell `(ix, iy)` holding the sample `e`; `c` is the resolved
configuration, `mh` is `maxhoriz`. -/
def cellScatter (sqrt : α → α) (pow : α → α → α) (c : Config α) (mh : α) (mx my : Nat)
    (ix iy : Nat) (e : α) : Scatter α :=
  let elevm := c.elevs0 + e * (c.elevs1 - c.elevs0)
  let pfy := 1 / 2 + elevm / c.mpp
  let py := min (c.oy - 1) (max 0 (toInt pfy))
  let distsq : α := ((((ix : Int) - (mx : Int) : Int) : α) * (((ix : Int) - (mx : Int) : Int) : α))
    + ((((iy : Int) - (my : Int) : Int) : α) * (((iy : Int) - (my : Int) : Int) : α))
  let pfx := (c.ox : α) * sqrt distsq / mh
  let px := min (c.ox - 1) (max 0 (toInt pfx))
  let toadd := pow (distsq + 1) (-(3 / 10))
  { pfx := pfx, pfy := pfy, px := px, py := py, toadd := toadd,
    fracx := pfx - (px : α), fracy := pfy - (py : α) }

/-- Lines 227-230: the writes `profimg[x][y] += w` that are performed, in order, as
triples `(x, y, w)`. -/
def cellWrites (ox oy : Int) (s : Scatter α) : List (Int × Int × α) :=
  [(s.px, s.py, s.toadd * (1 - s.fracx) * (1 - s.fracy))]
    ++ (if s.px + 1 < ox then [(s.px + 1, s.py, s.toadd * s.fracx * (1 - s.fracy))] else [])
    ++ (if s.py + 1 < oy then [(s.px, s.py + 1, s.toadd * (1 - s.fracx) * s.fracy)] else [])
    ++ (if s.px + 1 < ox ∧ s.py + 1 < oy then
          [(s.px + 1, s.py + 1, s.toadd * s.fracx * s.fracy)] else [])

/-- The total of the increments of a list of writes. -/
def totalWeight (ws : List (Int × Int × α)) : α :=
  (ws.map (fun w => w.2.2)).sum

/-- One write `img[x][y] += w`. -/
def addAt (img : Int → Int → α) (w : Int × Int × α) : Int → Int → α :=
  fun i j => if i = w.1 ∧ j = w.2.1 then img i j + w.2.2 else img i j

/-- Lines 203-230: the body of the render loop at `(ix, iy)`. -/
def renderCell (sqrt : α → α) (pow : α → α → α) (c : Config α) (mh : α) (mx my : Nat)
    (dem : Nat → Nat → α) (ix iy : Nat) (img : Int → Int → α) : Int → Int → α :=
  (cellWrites c.ox c.oy (cellScatter sqrt pow c mh mx my ix iy (dem ix iy))).foldl addAt img

/-- Lines 189-232: the zeroed image and the render loop over all source cells. -/
def render (sqrt : α → α) (pow : α → α → α) (c : Config α) (mh : α) (mx my : Nat)
    (nx ny : Nat) (dem : Nat → Nat → α) : Int → Int → α :=
  forLoop nx (fun ix img => forLoop ny (fun iy im => renderCell sqrt pow c mh mx my dem ix iy im)
    img) (fun _ _ => 0)

/-! ## Tone mapper (lines 259-265) -/

/-- Line 262: `val = profimg[ix][iy] * 0.6f/(mpp*mpp)`. -/
def toneVal (mpp acc : α) : α :=
  acc * (6 / 10) / (mpp * mpp)

/-- Line 263: `std::pow(1.f - std::min(1.f, val), 6)`. -/
def toneFinal (val : α) : α :=
  (1 - min 1 val) ^ 6

/-- Lines 262-263 for one cell. -/
def toneMap (mpp acc : α) : α :=
  toneFinal (toneVal mpp acc)

/-! ## The pipeline (lines 131-265) -/

/-- The output of `main`: the width and height passed to the raster writer and the image. -/
structure Output (α : Type) where
  ox : Int
  oy : Int
  img : Int → Int → α

/-- Lines 131-265: peak locator, geometry resolver, renderer and tone mapper. -/
def pipeline (sqrt : α → α) (pow : α → α → α) (c : Config α) (nx ny : Nat)
    (dem : Nat → Nat → α) : Output α :=
  let p := peakLocator nx ny dem
  let mh := maxhoriz sqrt nx ny p.mx p.my
  let r := resolveGeometry c mh
  let acc := render sqrt pow r mh p.mx p.my nx ny dem
  { ox := r.ox, oy := r.oy, img := fun i j => toneMap r.mpp (acc i j) }

/-- The configuration in force in the render loop of a run: lines 131-180 on the input. -/
def resolvedConfig (sqrt : α → α) (c : Config α) (nx ny : Nat) (dem : Nat → Nat → α) :
    Config α :=
  let p := peakLocator nx ny dem
  resolveGeometry c (maxhoriz sqrt nx ny p.mx p.my)

/-- The per-cell locals of the render loop at the source cell `(ix, iy)` of a run. -/
def runScatter (sqrt : α → α) (pow : α → α → α) (c : Config α) (nx ny : Nat)
    (dem : Nat → Nat → α) (ix iy : Nat) : Scatter α :=
  let p := peakLocator nx ny dem
  let mh := maxhoriz sqrt nx ny p.mx p.my
  cellScatter sqrt pow (resolveGeometry c mh) mh p.mx p.my ix iy (dem ix iy)

/-- The writes performed by the render loop at the source cell `(ix, iy)` of a run. -/
def runWrites (sqrt : α → α) (pow : α → α → α) (c : Config α) (nx ny : Nat)
    (dem : Nat → Nat → α) (ix iy : Nat) : List (Int × Int × α) :=
  cellWrites (resolvedConfig sqrt c nx ny dem).ox (resolvedConfig sqrt c nx ny dem).oy
    (runScatter sqrt pow c nx ny dem ix iy)

/-- The source cells `(ix, iy)` in the order in which the render loop visits them: `ix` outer,
`iy` inner. -/
def scanOrder (nx ny : Nat) : List (Nat × Nat) :=
  forLoop nx (fun ix l => forLoop ny (fun iy k => k ++ [(ix, iy)]) l) []

/-- The body of the render loop applied to the source cells of a list, in list order. -/
def renderCells (sqrt : α → α) (pow : α → α → α) (c : Config α) (mh : α) (mx my : Nat)
    (dem : Nat → Nat → α) (cells : List (Nat × Nat)) (img : Int → Int → α) : Int → Int → α :=
  cells.foldl (fun im q => renderCell sqrt pow c mh mx my dem q.1 q.2 im) img

/-- The total of the increments of the writes of `ws` that go to the cell `(i, j)`. -/
def writtenAt (ws : List (Int × Int × α)) (i j : Int) : α :=
  (ws.map (fun w => if i = w.1 ∧ j = w.2.1 then w.2.2 else 0)).sum

/-- The input of the end-to-end scenario: the 4x4 raster whose only non-zero sample is `1.0` at
`(1, 1)`. -/
def scenarioDem : Nat → Nat → α :=
  fun ix iy => if ix = 1 ∧ iy = 1 then 1 else 0

end Embedding

end MountainPlots

namespace MountainPlots

/-! ## Auxiliary facts -/

theorem toInt_of_nonneg (x : ℝ) (h : 0 ≤ x) : toInt x = Int.floor x := by
  simp [toInt, h]

theorem toInt_eq_round (x : ℝ) (h : 0 ≤ x) : toInt (x + 1 / 2) = round x := by
  rw [toInt_of_nonneg _ (by linarith), round_eq]

theorem resolveMpp_pos (c : Config ℝ) : 0 < (resolveMpp c).mpp := by
  unfold resolveMpp
  split_ifs with h
  · simp
  · exact lt_of_not_le h

theorem resolveMpp_mpp (c : Config ℝ) :
    (resolveMpp c).mpp = if c.mpp ≤ 0 then 1 else c.mpp := by
  unfold resolveMpp
  split_ifs <;> rfl

theorem resolveOy_unset (d : Config ℝ) (h : d.oy = 0) :
    (resolveOy d).mpp = d.mpp ∧ (resolveOy d).elevs0 = d.elevs0 ∧
    (resolveOy d).elevs1 = (if d.elevs1 > 0 then d.elevs1 else 5000) ∧
    (resolveOy d).oy = toInt ((resolveOy d).elevs1 / (resolveOy d).mpp + 1 / 2) := by
  unfold resolveOy
  rw [if_pos h]
  split_ifs <;> exact ⟨rfl, rfl, rfl, rfl⟩

theorem resolveOy_set (d : Config ℝ) (h : d.oy ≠ 0) :
    (resolveOy d).oy = d.oy ∧ (resolveOy d).ox = d.ox ∧
    (d.elevs1 > 0 → (resolveOy d).elevs0 = d.elevs0 ∧ (resolveOy d).elevs1 = d.elevs1 ∧
      (resolveOy d).mpp = d.elevs1 / (d.oy : ℝ)) ∧
    (¬ d.elevs1 > 0 → (resolveOy d).elevs0 = 0 ∧ (resolveOy d).elevs1 = d.mpp * (d.oy : ℝ) ∧
      (resolveOy d).mpp = d.mpp) := by
  unfold resolveOy
  rw [if_neg h]
  split_ifs with hw
  · exact ⟨rfl, rfl, fun _ => ⟨rfl, rfl, rfl⟩, fun hn => absurd hw hn⟩
  · exact ⟨rfl, rfl, fun hp => absurd hp hw, fun _ => ⟨rfl, rfl, rfl⟩⟩

/-! ## Tone mapper -/

/-- C9. The tone map `final(val) = (1 - min(1, val))^6` is `1` at `val = 0`, is `0` for every
`val ≥ 1`, and is non-increasing on `[0, 1]`; the value written to a cell is `final` of
`val = accumulated * 0.6 / mpp^2`. -/
theorem toneFinal_boundary_and_antitone :
    toneFinal (0 : ℝ) = 1 ∧
    (∀ val : ℝ, 1 ≤ val → toneFinal val = 0) ∧
    (∀ val1 val2 : ℝ, 0 ≤ val1 → val1 ≤ val2 → val2 ≤ 1 → toneFinal val2 ≤ toneFinal val1) ∧
    (∀ mpp acc : ℝ, toneMap mpp acc = toneFinal (acc * (6 / 10) / mpp ^ 2)) := by
  refine ⟨?_, ?_, ?_, ?_⟩
  · simp [toneFinal]
  · intro val h
    simp [toneFinal, min_eq_left h]
  · intro v1 v2 h0 h12 h1
    unfold toneFinal
    rw [min_eq_right h1, min_eq_right (le_trans h12 h1)]
    exact pow_le_pow_left₀ (by linarith) (by linarith) 6
  · intro mpp acc
    simp [toneMap, toneVal, pow_two]

/-- C9, at `val1 = 1/4`, `val2 = 1/2`. -/
theorem toneFinal_boundary_and_antitone_witness :
    (0 : ℝ) ≤ 1 / 4 ∧ (1 / 4 : ℝ) ≤ 1 / 2 ∧ (1 / 2 : ℝ) ≤ 1 ∧
      toneFinal (1 / 2 : ℝ) ≤ toneFinal (1 / 4 : ℝ) :=
  ⟨by norm_num, by norm_num, by norm_num,
    toneFinal_boundary_and_antitone.2.2.1 (1 / 4) (1 / 2) (by norm_num) (by norm_num)
      (by norm_num)⟩


/-! ## Output geometry resolver -/

/-- C7, as stated, fails: with `-e 1000 3000 -m 1` and no `-y` the resolved height is
`3000 = round(elev_white / mpp)`, not `round(S / mpp) = 2000` for the span `S = 2000`. -/
theorem oy_unset_not_round_span :
    (resolveGeometry (⟨0, 0, 1000, 3000, 1⟩ : Config ℝ) (maxhoriz Real.sqrt 1 1 0 0)).mpp = 1 ∧
    (resolveGeometry (⟨0, 0, 1000, 3000, 1⟩ : Config ℝ) (maxhoriz Real.sqrt 1 1 0 0)).oy = 3000 ∧
    (resolveGeometry (⟨0, 0, 1000, 3000, 1⟩ : Config ℝ) (maxhoriz Real.sqrt 1 1 0 0)).oy ≠
      round (((3000 : ℝ) - 1000) /
        (resolveGeometry (⟨0, 0, 1000, 3000, 1⟩ : Config ℝ) (maxhoriz Real.sqrt 1 1 0 0)).mpp) := by
  have h : toInt ((6001 : ℝ) / 2) = 3000 := by
    rw [toInt_of_nonneg _ (by norm_num), Int.floor_eq_iff]
    norm_num
  simp only [resolveGeometry, resolveOx, resolveMpp, resolveOy]
  norm_num [h]

/-- C7, amended. When `oy` is not supplied the resolver sets
`oy = int(W / m + 0.5) = round(W / m)`, where `m` is the resolved meters-per-pixel (positive)
and `W` is the resolved white bound: the configured `elev_white` when it is positive, `5000`
otherwise. The black bound does not enter, so `oy = round(S / m)` for the span
`S = elev_white - elev_black` when `elev_black = 0`. -/
theorem oy_unset_is_round_white_over_mpp (c : Config ℝ) (mh : ℝ) (h : c.oy = 0) :
    0 < (resolveGeometry c mh).mpp ∧
    (resolveGeometry c mh).mpp = (if c.mpp ≤ 0 then 1 else c.mpp) ∧
    (resolveGeometry c mh).elevs0 = c.elevs0 ∧
    (resolveGeometry c mh).elevs1 = (if c.elevs1 > 0 then c.elevs1 else 5000) ∧
    (resolveGeometry c mh).oy =
      toInt ((resolveGeometry c mh).elevs1 / (resolveGeometry c mh).mpp + 1 / 2) ∧
    (resolveGeometry c mh).oy =
      round ((resolveGeometry c mh).elevs1 / (resolveGeometry c mh).mpp) ∧
    (c.elevs0 = 0 → (resolveGeometry c mh).oy =
      round (((resolveGeometry c mh).elevs1 - (resolveGeometry c mh).elevs0) /
        (resolveGeometry c mh).mpp)) := by
  generalize hr : resolveGeometry c mh = r
  have hrd : r = resolveOy (resolveMpp (resolveOx c mh)) := hr.symm
  have hm := resolveMpp_pos (resolveOx c mh)
  have hmv : (resolveMpp (resolveOx c mh)).mpp = if c.mpp ≤ 0 then 1 else c.mpp := by
    rw [resolveMpp_mpp]
    unfold resolveOx
    split_ifs <;> rfl
  have hoy : (resolveMpp (resolveOx c mh)).oy = 0 := by
    unfold resolveMpp resolveOx
    split_ifs <;> simpa using h
  have he0 : (resolveMpp (resolveOx c mh)).elevs0 = c.elevs0 := by
    unfold resolveMpp resolveOx
    split_ifs <;> rfl
  have he1 : (resolveMpp (resolveOx c mh)).elevs1 = c.elevs1 := by
    unfold resolveMpp resolveOx
    split_ifs <;> rfl
  have key : 0 < r.mpp ∧ r.mpp = (if c.mpp ≤ 0 then 1 else c.mpp) ∧
      r.elevs0 = c.elevs0 ∧ r.elevs1 = (if c.elevs1 > 0 then c.elevs1 else 5000) ∧
      r.oy = toInt (r.elevs1 / r.mpp + 1 / 2) := by
    obtain ⟨q1, q2, q3, q4⟩ := resolveOy_unset (resolveMpp (resolveOx c mh)) hoy
    rw [← hrd] at q1 q2 q3 q4
    refine ⟨?_, ?_, ?_, ?_, q4⟩
    · exact q1 ▸ hm
    · exact q1.trans hmv
    · exact q2.trans he0
    · rw [he1] at q3
      exact q3
  obtain ⟨k1, k2, k3, k4, k5⟩ := key
  have hw : 0 ≤ r.elevs1 / r.mpp := by
    apply div_nonneg _ k1.le
    rw [k4]
    split_ifs with hw
    · exact hw.le
    · norm_num
  have k6 : r.oy = round (r.elevs1 / r.mpp) := by
    rw [k5, toInt_eq_round _ hw]
  refine ⟨k1, k2, k3, k4, k5, k6, ?_⟩
  intro h0
  rw [k6, k3, h0, sub_zero]

/-- C7, amended, at `-e 1000 3000 -m 2`: `oy = round(3000 / 2)`. -/
theorem oy_unset_is_round_white_over_mpp_witness :
    (⟨0, 0, 1000, 3000, 2⟩ : Config ℝ).oy = 0 ∧
    (resolveGeometry (⟨0, 0, 1000, 3000, 2⟩ : Config ℝ) 3).oy =
      round ((resolveGeometry (⟨0, 0, 1000, 3000, 2⟩ : Config ℝ) 3).elevs1 /
        (resolveGeometry (⟨0, 0, 1000, 3000, 2⟩ : Config ℝ) 3).mpp) :=
  ⟨rfl, (oy_unset_is_round_white_over_mpp ⟨0, 0, 1000, 3000, 2⟩ 3 rfl).2.2.2.2.2.1⟩


/-- C8, as stated, fails: with `-y 100 -e 1000 3000` the span is `S = 2000` but the resolver sets
`mpp = elev_white / oy = 30`, not `S / oy = 20`, and the resolved span is not `mpp * oy`. -/
theorem oy_set_mpp_not_span_over_oy :
    (resolveGeometry (⟨0, 100, 1000, 3000, -1⟩ : Config ℝ) (maxhoriz Real.sqrt 1 1 0 0)).oy
      = 100 ∧
    (resolveGeometry (⟨0, 100, 1000, 3000, -1⟩ : Config ℝ) (maxhoriz Real.sqrt 1 1 0 0)).elevs0
      = 1000 ∧
    (resolveGeometry (⟨0, 100, 1000, 3000, -1⟩ : Config ℝ) (maxhoriz Real.sqrt 1 1 0 0)).elevs1
      = 3000 ∧
    (resolveGeometry (⟨0, 100, 1000, 3000, -1⟩ : Config ℝ) (maxhoriz Real.sqrt 1 1 0 0)).mpp
      = 30 ∧
    (resolveGeometry (⟨0, 100, 1000, 3000, -1⟩ : Config ℝ) (maxhoriz Real.sqrt 1 1 0 0)).mpp
      ≠ ((3000 : ℝ) - 1000) / ((100 : Int) : ℝ) ∧
    (resolveGeometry (⟨0, 100, 1000, 3000, -1⟩ : Config ℝ) (maxhoriz Real.sqrt 1 1 0 0)).elevs1
      - (resolveGeometry (⟨0, 100, 1000, 3000, -1⟩ : Config ℝ)
          (maxhoriz Real.sqrt 1 1 0 0)).elevs0
      ≠ (resolveGeometry (⟨0, 100, 1000, 3000, -1⟩ : Config ℝ)
          (maxhoriz Real.sqrt 1 1 0 0)).mpp * ((100 : Int) : ℝ) := by
  simp only [resolveGeometry, resolveOx, resolveMpp, resolveOy]
  norm_num

/-- C8, amended. When `oy` is supplied (`oy > 0`) it is kept. If a positive `elev_white` was
configured, the resolver leaves both bounds unchanged and sets `mpp = elev_white / oy`;
otherwise it keeps the resolved `mpp` and sets the bounds to `(0, mpp * oy)`. In both cases the
resolved triple satisfies `elev_white = mpp * oy`, hence `span = mpp * oy` whenever the resolved
`elev_black` is `0`. -/
theorem oy_set_white_eq_mpp_mul_oy (c : Config ℝ) (mh : ℝ) (h : 0 < c.oy) :
    (resolveGeometry c mh).oy = c.oy ∧
    (c.elevs1 > 0 → (resolveGeometry c mh).elevs0 = c.elevs0 ∧
      (resolveGeometry c mh).elevs1 = c.elevs1 ∧
      (resolveGeometry c mh).mpp = c.elevs1 / (c.oy : ℝ)) ∧
    (¬ c.elevs1 > 0 → (resolveGeometry c mh).mpp = (if c.mpp ≤ 0 then 1 else c.mpp) ∧
      (resolveGeometry c mh).elevs0 = 0 ∧
      (resolveGeometry c mh).elevs1 = (resolveGeometry c mh).mpp * (c.oy : ℝ)) ∧
    (resolveGeometry c mh).elevs1 =
      (resolveGeometry c mh).mpp * ((resolveGeometry c mh).oy : ℝ) ∧
    ((resolveGeometry c mh).elevs0 = 0 →
      (resolveGeometry c mh).elevs1 - (resolveGeometry c mh).elevs0 =
        (resolveGeometry c mh).mpp * ((resolveGeometry c mh).oy : ℝ)) := by
  generalize hr : resolveGeometry c mh = r
  have hrd : r = resolveOy (resolveMpp (resolveOx c mh)) := hr.symm
  have hmv : (resolveMpp (resolveOx c mh)).mpp = if c.mpp ≤ 0 then 1 else c.mpp := by
    rw [resolveMpp_mpp]
    unfold resolveOx
    split_ifs <;> rfl
  have hoy : (resolveMpp (resolveOx c mh)).oy = c.oy := by
    unfold resolveMpp resolveOx
    split_ifs <;> rfl
  have he0 : (resolveMpp (resolveOx c mh)).elevs0 = c.elevs0 := by
    unfold resolveMpp resolveOx
    split_ifs <;> rfl
  have he1 : (resolveMpp (resolveOx c mh)).elevs1 = c.elevs1 := by
    unfold resolveMpp resolveOx
    split_ifs <;> rfl
  have hne : (resolveMpp (resolveOx c mh)).oy ≠ 0 := by
    rw [hoy]
    exact h.ne.symm
  have hoyR : (c.oy : ℝ) ≠ 0 := by
    exact_mod_cast h.ne.symm
  obtain ⟨q1, -, q3, q4⟩ := resolveOy_set (resolveMpp (resolveOx c mh)) hne
  rw [← hrd] at q1 q3 q4
  rw [he1, hoy] at q3 q4
  rw [he0] at q3
  rw [hmv] at q4
  have r1 : r.oy = c.oy := q1.trans hoy
  have r2 : c.elevs1 > 0 → r.elevs0 = c.elevs0 ∧ r.elevs1 = c.elevs1 ∧
      r.mpp = c.elevs1 / (c.oy : ℝ) := q3
  have r3 : ¬ c.elevs1 > 0 → r.mpp = (if c.mpp ≤ 0 then 1 else c.mpp) ∧ r.elevs0 = 0 ∧
      r.elevs1 = r.mpp * (c.oy : ℝ) := by
    intro hw
    obtain ⟨a, b, d⟩ := q4 hw
    exact ⟨d, a, by rw [show r.mpp = _ from d]; exact b⟩
  have r4 : r.elevs1 = r.mpp * (r.oy : ℝ) := by
    rw [r1]
    by_cases hw : c.elevs1 > 0
    · obtain ⟨-, b, d⟩ := r2 hw
      rw [b, d]
      field_simp
    · exact (r3 hw).2.2
  refine ⟨r1, r2, r3, r4, ?_⟩
  intro h0
  rw [h0, sub_zero]
  exact r4

/-- C8, amended, at `-y 100 -e 1000 3000`: `3000 = mpp * 100`. -/
theorem oy_set_white_eq_mpp_mul_oy_witness :
    0 < (⟨0, 100, 1000, 3000, -1⟩ : Config ℝ).oy ∧
    (resolveGeometry (⟨0, 100, 1000, 3000, -1⟩ : Config ℝ) 3).elevs1 =
      (resolveGeometry (⟨0, 100, 1000, 3000, -1⟩ : Config ℝ) 3).mpp *
        ((resolveGeometry (⟨0, 100, 1000, 3000, -1⟩ : Config ℝ) 3).oy : ℝ) :=
  ⟨by decide, (oy_set_white_eq_mpp_mul_oy ⟨0, 100, 1000, 3000, -1⟩ 3 (by decide)).2.2.2.1⟩


/-! ## Histogram renderer: one source cell -/

theorem distsq_nonneg (a b : Int) : (0 : ℝ) ≤ (a : ℝ) * (a : ℝ) + (b : ℝ) * (b : ℝ) := by
  nlinarith [mul_self_nonneg (a : ℝ), mul_self_nonneg (b : ℝ)]

theorem cellScatter_toadd_pos (c : Config ℝ) (mh : ℝ) (mx my ix iy : Nat) (e : ℝ) :
    0 < (cellScatter Real.sqrt Real.rpow c mh mx my ix iy e).toadd := by
  show 0 < Real.rpow _ _
  apply Real.rpow_pos_of_pos
  have := distsq_nonneg ((ix : Int) - (mx : Int)) ((iy : Int) - (my : Int))
  linarith

/-- C3. When all four corners are in range (`0 ≤ px ≤ ox-2`, `0 ≤ py ≤ oy-2`) the renderer
performs the four writes at `(px,py)`, `(px+1,py)`, `(px,py+1)`, `(px+1,py+1)`, every one inside
the `ox x oy` image, and the four increments sum to `toadd = (distsq+1)^(-0.3)` exactly. -/
theorem interior_weights_sum_to_toadd (c : Config ℝ) (mh : ℝ) (mx my ix iy : Nat) (e : ℝ)
    (s : Scatter ℝ) (hs : s = cellScatter Real.sqrt Real.rpow c mh mx my ix iy e)
    (hx0 : 0 ≤ s.px) (hx : s.px ≤ c.ox - 2) (hy0 : 0 ≤ s.py) (hy : s.py ≤ c.oy - 2) :
    cellWrites c.ox c.oy s =
      [(s.px, s.py, s.toadd * (1 - s.fracx) * (1 - s.fracy)),
       (s.px + 1, s.py, s.toadd * s.fracx * (1 - s.fracy)),
       (s.px, s.py + 1, s.toadd * (1 - s.fracx) * s.fracy),
       (s.px + 1, s.py + 1, s.toadd * s.fracx * s.fracy)] ∧
    s.toadd * (1 - s.fracx) * (1 - s.fracy) + s.toadd * s.fracx * (1 - s.fracy)
      + s.toadd * (1 - s.fracx) * s.fracy + s.toadd * s.fracx * s.fracy = s.toadd ∧
    totalWeight (cellWrites c.ox c.oy s) = s.toadd ∧
    (∀ w ∈ cellWrites c.ox c.oy s, 0 ≤ w.1 ∧ w.1 < c.ox ∧ 0 ≤ w.2.1 ∧ w.2.1 < c.oy) ∧
    s.toadd = Real.rpow
      ((((ix : Int) - (mx : Int) : Int) : ℝ) * (((ix : Int) - (mx : Int) : Int) : ℝ)
        + (((iy : Int) - (my : Int) : Int) : ℝ) * (((iy : Int) - (my : Int) : Int) : ℝ) + 1)
      (-(3 / 10)) := by
  have gx : s.px + 1 < c.ox := by omega
  have gy : s.py + 1 < c.oy := by omega
  have hw : cellWrites c.ox c.oy s =
      [(s.px, s.py, s.toadd * (1 - s.fracx) * (1 - s.fracy)),
       (s.px + 1, s.py, s.toadd * s.fracx * (1 - s.fracy)),
       (s.px, s.py + 1, s.toadd * (1 - s.fracx) * s.fracy),
       (s.px + 1, s.py + 1, s.toadd * s.fracx * s.fracy)] := by
    simp [cellWrites, gx, gy]
  refine ⟨hw, by ring, ?_, ?_, ?_⟩
  · rw [hw]
    simp only [totalWeight, List.map_cons, List.map_nil, List.sum_cons, List.sum_nil]
    ring
  · intro w hmem
    rw [hw] at hmem
    simp only [List.mem_cons, List.mem_singleton, List.not_mem_nil, or_false] at hmem
    rcases hmem with h | h | h | h <;> rw [h] <;> simp only <;> omega
  · rw [hs]
    rfl

/-- C4, amended. For a source cell with `px = ox-1` the two corners of column `px+1` are not
written, so at most two corners are written. When moreover `py+1 < oy` exactly the two corners
`(px,py)` and `(px,py+1)` are written and the total written is `toadd * (1 - fracx)`: strictly
below `toadd` when `fracx > 0`, equal to `toadd` when `fracx = 0`. -/
theorem last_column_writes (c : Config ℝ) (mh : ℝ) (mx my ix iy : Nat) (e : ℝ)
    (s : Scatter ℝ) (hs : s = cellScatter Real.sqrt Real.rpow c mh mx my ix iy e)
    (hx : s.px = c.ox - 1) :
    (∀ w ∈ cellWrites c.ox c.oy s, w.1 = s.px) ∧ (cellWrites c.ox c.oy s).length ≤ 2 ∧
    (s.py + 1 < c.oy →
      cellWrites c.ox c.oy s =
        [(s.px, s.py, s.toadd * (1 - s.fracx) * (1 - s.fracy)),
         (s.px, s.py + 1, s.toadd * (1 - s.fracx) * s.fracy)] ∧
      totalWeight (cellWrites c.ox c.oy s) = s.toadd * (1 - s.fracx) ∧
      (0 < s.fracx → totalWeight (cellWrites c.ox c.oy s) < s.toadd) ∧
      (s.fracx = 0 → totalWeight (cellWrites c.ox c.oy s) = s.toadd)) := by
  have gx : ¬ s.px + 1 < c.ox := by omega
  have hpos : 0 < s.toadd := by
    rw [hs]
    exact cellScatter_toadd_pos c mh mx my ix iy e
  refine ⟨?_, ?_, ?_⟩
  · intro w hw
    by_cases gy : s.py + 1 < c.oy
    · simp [cellWrites, gx, gy] at hw
      rcases hw with hw | hw <;> rw [hw]
    · simp [cellWrites, gx, gy] at hw
      rw [hw]
  · by_cases gy : s.py + 1 < c.oy <;> simp [cellWrites, gx, gy]
  · intro gy
    have hw : cellWrites c.ox c.oy s =
        [(s.px, s.py, s.toadd * (1 - s.fracx) * (1 - s.fracy)),
         (s.px, s.py + 1, s.toadd * (1 - s.fracx) * s.fracy)] := by
      simp [cellWrites, gx, gy]
    have ht : totalWeight (cellWrites c.ox c.oy s) = s.toadd * (1 - s.fracx) := by
      rw [hw]
      simp only [totalWeight, List.map_cons, List.map_nil, List.sum_cons, List.sum_nil]
      ring
    refine ⟨hw, ht, ?_, ?_⟩
    · intro hf
      rw [ht]
      nlinarith
    · intro hf
      rw [ht, hf]
      ring

/-! ## Evaluation at concrete inputs -/

theorem toInt_zero : toInt (0 : ℝ) = 0 := by
  simp [toInt]

theorem toInt_eq_of_bounds (x : ℝ) (n : Int) (h0 : 0 ≤ x) (h1 : (n : ℝ) ≤ x)
    (h2 : x < (n : ℝ) + 1) : toInt x = n := by
  rw [toInt_of_nonneg _ h0, Int.floor_eq_iff]
  exact ⟨h1, h2⟩

theorem sqrt_two_lt : Real.sqrt 2 < 3 / 2 := by
  rw [Real.sqrt_lt' (by norm_num)]
  norm_num

theorem one_le_sqrt_two : 1 ≤ Real.sqrt 2 := by
  rw [Real.le_sqrt' (by norm_num)]
  norm_num

theorem toInt_sqrt_two : toInt (Real.sqrt 2 + 1 / 2) = 1 := by
  rw [toInt_of_nonneg _ (by positivity), Int.floor_eq_iff]
  constructor
  · have := one_le_sqrt_two
    push_cast
    linarith
  · have := sqrt_two_lt
    push_cast
    linarith

theorem maxhoriz_one_one : maxhoriz Real.sqrt 1 1 0 0 = Real.sqrt 2 := by
  simp [maxhoriz, maxhorizsq]
  norm_num

theorem peakLocator_one_one (v : ℝ) (h : 0 < v) :
    peakLocator 1 1 (fun _ _ => v) = ⟨v, 0, 0⟩ := by
  simp [peakLocator, forLoop, peakStep, h]

theorem resolveGeometry_default_one_one :
    resolveGeometry (defaultConfig : Config ℝ) (Real.sqrt 2) = ⟨1, 5000, 0, 5000, 1⟩ := by
  have h : toInt ((5000 : ℝ) / 1 + 1 / 2) = 5000 :=
    toInt_eq_of_bounds _ 5000 (by norm_num) (by norm_num) (by norm_num)
  simp only [resolveGeometry, resolveOx, resolveMpp, resolveOy, defaultConfig]
  simp [toInt_sqrt_two]
  norm_num at h ⊢
  exact ⟨toInt_sqrt_two, h⟩

theorem cellScatter_peak_one_one (e : ℝ) :
    cellScatter Real.sqrt Real.rpow ⟨1, 5000, 0, 5000, 1⟩ (Real.sqrt 2) 0 0 0 0 e =
      ⟨0, 1 / 2 + 5000 * e, 0, min 4999 (max 0 (toInt (1 / 2 + 5000 * e))), 1, 0,
        1 / 2 + 5000 * e - ((min 4999 (max 0 (toInt (1 / 2 + 5000 * e))) : Int) : ℝ)⟩ := by
  simp [cellScatter, toInt_zero, mul_comm]

theorem forLoop_one {σ : Type} (body : Nat → σ → σ) (s : σ) : forLoop 1 body s = body 0 s :=
  rfl

/-- The total written for a cell is `toadd` times one factor per axis: `1` when the far corner
of that axis is in range, `1 - frac` when it is dropped. -/
theorem totalWeight_cellWrites (ox oy : Int) (s : Scatter ℝ) :
    totalWeight (cellWrites ox oy s) =
      s.toadd * (if s.px + 1 < ox then 1 else 1 - s.fracx)
        * (if s.py + 1 < oy then 1 else 1 - s.fracy) := by
  by_cases gx : s.px + 1 < ox <;> by_cases gy : s.py + 1 < oy <;>
    simp [cellWrites, totalWeight, gx, gy] <;> ring

/-- What does hold for the total written: when `toadd ≥ 0`, `fracx` lies in `[0, 1]` and
`fracy ≥ 0`, the total is at most `toadd`. -/
theorem totalWeight_le_toadd_of_fracs (ox oy : Int) (s : Scatter ℝ) (ht : 0 ≤ s.toadd)
    (hx0 : 0 ≤ s.fracx) (hx1 : s.fracx ≤ 1) (hy0 : 0 ≤ s.fracy) :
    totalWeight (cellWrites ox oy s) ≤ s.toadd := by
  rw [totalWeight_cellWrites]
  have hX0 : 0 ≤ (if s.px + 1 < ox then (1 : ℝ) else 1 - s.fracx) := by
    split_ifs
    · norm_num
    · linarith
  have hX1 : (if s.px + 1 < ox then (1 : ℝ) else 1 - s.fracx) ≤ 1 := by
    split_ifs
    · exact le_refl _
    · linarith
  have hY1 : (if s.py + 1 < oy then (1 : ℝ) else 1 - s.fracy) ≤ 1 := by
    split_ifs
    · exact le_refl _
    · linarith
  have h1 : s.toadd * (if s.px + 1 < ox then (1 : ℝ) else 1 - s.fracx) ≤ s.toadd :=
    mul_le_of_le_one_right ht hX1
  have h2 : 0 ≤ s.toadd * (if s.px + 1 < ox then (1 : ℝ) else 1 - s.fracx) :=
    mul_nonneg ht hX0
  exact le_trans (mul_le_of_le_one_right h2 hY1) h1

/-- The render loop of a run performs, at the source cell `(ix, iy)`, exactly the writes
`runWrites` of that cell. -/
theorem renderCell_eq_runWrites (c : Config ℝ) (nx ny : Nat) (dem : Nat → Nat → ℝ)
    (ix iy : Nat) (img : Int → Int → ℝ) :
    renderCell Real.sqrt Real.rpow (resolvedConfig Real.sqrt c nx ny dem)
        (maxhoriz Real.sqrt nx ny (peakLocator nx ny dem).mx (peakLocator nx ny dem).my)
        (peakLocator nx ny dem).mx (peakLocator nx ny dem).my dem ix iy img =
      (runWrites Real.sqrt Real.rpow c nx ny dem ix iy).foldl addAt img :=
  rfl

/-- The image of a run is the tone map of the render loop run with `resolvedConfig`. -/
theorem pipeline_img_eq (c : Config ℝ) (nx ny : Nat) (dem : Nat → Nat → ℝ) (i j : Int) :
    (pipeline Real.sqrt Real.rpow c nx ny dem).img i j =
      toneMap (resolvedConfig Real.sqrt c nx ny dem).mpp
        (render Real.sqrt Real.rpow (resolvedConfig Real.sqrt c nx ny dem)
          (maxhoriz Real.sqrt nx ny (peakLocator nx ny dem).mx (peakLocator nx ny dem).my)
          (peakLocator nx ny dem).mx (peakLocator nx ny dem).my nx ny dem i j) :=
  rfl

/-- C4, as stated, fails: for the one-cell raster holding `1/2` under the default configuration
the cell maps to `px = 0 = ox-1`, two corners are written, and the total written equals
`toadd = 1`, which is not strictly below `toadd`. -/
theorem last_column_total_not_below_toadd :
    (runScatter Real.sqrt Real.rpow defaultConfig 1 1 (fun _ _ => (1 / 2 : ℝ)) 0 0).px =
      (resolvedConfig Real.sqrt defaultConfig 1 1 (fun _ _ => (1 / 2 : ℝ))).ox - 1 ∧
    totalWeight (runWrites Real.sqrt Real.rpow defaultConfig 1 1 (fun _ _ => (1 / 2 : ℝ)) 0 0) =
      (runScatter Real.sqrt Real.rpow defaultConfig 1 1 (fun _ _ => (1 / 2 : ℝ)) 0 0).toadd ∧
    ¬ ((runWrites Real.sqrt Real.rpow defaultConfig 1 1 (fun _ _ => (1 / 2 : ℝ)) 0 0).length = 2 ∧
        totalWeight
            (runWrites Real.sqrt Real.rpow defaultConfig 1 1 (fun _ _ => (1 / 2 : ℝ)) 0 0) <
          (runScatter Real.sqrt Real.rpow defaultConfig 1 1 (fun _ _ => (1 / 2 : ℝ)) 0 0).toadd)
    := by
  have hp : peakLocator 1 1 (fun _ _ => (1 / 2 : ℝ)) = ⟨1 / 2, 0, 0⟩ :=
    peakLocator_one_one (1 / 2) (by norm_num)
  have ht : toInt ((1 : ℝ) / 2 + 5000 * (1 / 2)) = 2500 :=
    toInt_eq_of_bounds _ 2500 (by norm_num) (by norm_num) (by norm_num)
  simp only [runWrites, runScatter, resolvedConfig, hp, maxhoriz_one_one,
    resolveGeometry_default_one_one, cellScatter_peak_one_one, totalWeight_cellWrites, ht]
  norm_num

theorem cellScatter_at_peak (c : Config ℝ) (mh : ℝ) (mx my : Nat) (e : ℝ) :
    (cellScatter Real.sqrt Real.rpow c mh mx my mx my e).px = min (c.ox - 1) 0 ∧
    (cellScatter Real.sqrt Real.rpow c mh mx my mx my e).py =
      min (c.oy - 1) (max 0 (toInt (1 / 2 + (c.elevs0 + e * (c.elevs1 - c.elevs0)) / c.mpp))) ∧
    (cellScatter Real.sqrt Real.rpow c mh mx my mx my e).toadd = 1 := by
  simp [cellScatter, toInt_zero]

/-- C3, at the peak cell of a 4x4 raster (`ox = 3`, `oy = 5000`, sample `1/2`): `px = 0`,
`py = 2500`, all four corners written, total `toadd`. -/
theorem interior_weights_sum_to_toadd_witness :
    (0 ≤ (cellScatter Real.sqrt Real.rpow ⟨3, 5000, 0, 5000, 1⟩ (Real.sqrt 8) 1 1 1 1
        (1 / 2)).px ∧
      (cellScatter Real.sqrt Real.rpow ⟨3, 5000, 0, 5000, 1⟩ (Real.sqrt 8) 1 1 1 1
        (1 / 2)).px ≤ 3 - 2 ∧
      0 ≤ (cellScatter Real.sqrt Real.rpow ⟨3, 5000, 0, 5000, 1⟩ (Real.sqrt 8) 1 1 1 1
        (1 / 2)).py ∧
      (cellScatter Real.sqrt Real.rpow ⟨3, 5000, 0, 5000, 1⟩ (Real.sqrt 8) 1 1 1 1
        (1 / 2)).py ≤ 5000 - 2) ∧
    totalWeight (cellWrites 3 5000
        (cellScatter Real.sqrt Real.rpow ⟨3, 5000, 0, 5000, 1⟩ (Real.sqrt 8) 1 1 1 1 (1 / 2))) =
      (cellScatter Real.sqrt Real.rpow ⟨3, 5000, 0, 5000, 1⟩ (Real.sqrt 8) 1 1 1 1
        (1 / 2)).toadd := by
  generalize hc : (⟨3, 5000, 0, 5000, 1⟩ : Config ℝ) = c
  have hox : c.ox = 3 := by rw [← hc]
  have hoy : c.oy = 5000 := by rw [← hc]
  have he0 : c.elevs0 = 0 := by rw [← hc]
  have he1 : c.elevs1 = 5000 := by rw [← hc]
  have hm : c.mpp = 1 := by rw [← hc]
  rw [← hox, ← hoy]
  generalize hs : cellScatter Real.sqrt Real.rpow c (Real.sqrt 8) 1 1 1 1 (1 / 2) = s
  have ht : toInt ((1 : ℝ) / 2 + (0 + 1 / 2 * (5000 - 0)) / 1) = 2500 :=
    toInt_eq_of_bounds _ 2500 (by norm_num) (by norm_num) (by norm_num)
  obtain ⟨hx, hy, -⟩ := cellScatter_at_peak c (Real.sqrt 8) 1 1 (1 / 2)
  rw [hs, hox] at hx
  rw [hs, hoy, he0, he1, hm, ht] at hy
  have hx0 : s.px = 0 := by
    rw [hx]
    decide
  have hy0 : s.py = 2500 := by
    rw [hy]
    decide
  have h1 : 0 ≤ s.px := by rw [hx0]
  have h2 : s.px ≤ c.ox - 2 := by rw [hx0, hox]; decide
  have h3 : 0 ≤ s.py := by rw [hy0]; decide
  have h4 : s.py ≤ c.oy - 2 := by rw [hy0, hoy]; decide
  exact ⟨⟨h1, h2, h3, h4⟩,
    (interior_weights_sum_to_toadd c (Real.sqrt 8) 1 1 1 1 (1 / 2) s hs.symm h1 h2 h3
      h4).2.2.1⟩

/-- C4, amended, at the only cell of a 1x1 raster (`ox = 1`, `oy = 5000`, sample `1/2`):
`px = 0 = ox - 1`, `py + 1 = 2501 < oy`, total `toadd * (1 - fracx)`. -/
theorem last_column_writes_witness :
    ((cellScatter Real.sqrt Real.rpow ⟨1, 5000, 0, 5000, 1⟩ (Real.sqrt 2) 0 0 0 0 (1 / 2)).px
        = 1 - 1 ∧
      (cellScatter Real.sqrt Real.rpow ⟨1, 5000, 0, 5000, 1⟩ (Real.sqrt 2) 0 0 0 0 (1 / 2)).py
        + 1 < 5000) ∧
    totalWeight (cellWrites 1 5000
        (cellScatter Real.sqrt Real.rpow ⟨1, 5000, 0, 5000, 1⟩ (Real.sqrt 2) 0 0 0 0 (1 / 2))) =
      (cellScatter Real.sqrt Real.rpow ⟨1, 5000, 0, 5000, 1⟩ (Real.sqrt 2) 0 0 0 0
          (1 / 2)).toadd *
        (1 - (cellScatter Real.sqrt Real.rpow ⟨1, 5000, 0, 5000, 1⟩ (Real.sqrt 2) 0 0 0 0
          (1 / 2)).fracx) := by
  show
    let c : Config ℝ := ⟨1, 5000, 0, 5000, 1⟩
    let s := cellScatter Real.sqrt Real.rpow c (Real.sqrt 2) 0 0 0 0 (1 / 2)
    (s.px = c.ox - 1 ∧ s.py + 1 < c.oy) ∧
      totalWeight (cellWrites c.ox c.oy s) = s.toadd * (1 - s.fracx)
  intro c s
  have ht : toInt ((1 : ℝ) / 2 + (0 + 1 / 2 * (5000 - 0)) / 1) = 2500 :=
    toInt_eq_of_bounds _ 2500 (by norm_num) (by norm_num) (by norm_num)
  obtain ⟨hx, hy, -⟩ := cellScatter_at_peak c (Real.sqrt 2) 0 0 (1 / 2)
  have hx0 : s.px = c.ox - 1 := by
    rw [show s.px = _ from hx]
    decide
  have hy0 : s.py + 1 < c.oy := by
    rw [show s.py = _ from hy, ht]
    decide
  exact ⟨⟨hx0, hy0⟩,
    ((last_column_writes c (Real.sqrt 2) 0 0 0 0 (1 / 2) s rfl hx0).2.2 hy0).2.1⟩

/-- C1: the code on the one-cell raster holding `1.0` under the default configuration. The
output is `1 x 5000`; the cell maps to row `py = 4999` with `fracy = 1.5`, the only write is
`profimg[0][4999] += -0.5`, and the tone mapper turns it into `1.3^6 = 4.826809 > 1`. -/
theorem pipeline_white_pixel_exceeds_one :
    (pipeline Real.sqrt Real.rpow defaultConfig 1 1 (fun _ _ => (1 : ℝ))).ox = 1 ∧
    (pipeline Real.sqrt Real.rpow defaultConfig 1 1 (fun _ _ => (1 : ℝ))).oy = 5000 ∧
    (pipeline Real.sqrt Real.rpow defaultConfig 1 1 (fun _ _ => (1 : ℝ))).img 0 4999
      = (13 / 10) ^ 6 ∧
    ¬ ((pipeline Real.sqrt Real.rpow defaultConfig 1 1 (fun _ _ => (1 : ℝ))).img 0 4999 ≤ 1)
    := by
  have ht : toInt ((1 : ℝ) / 2 + 5000 * 1) = 5000 :=
    toInt_eq_of_bounds _ 5000 (by norm_num) (by norm_num) (by norm_num)
  have hi : (pipeline Real.sqrt Real.rpow defaultConfig 1 1 (fun _ _ => (1 : ℝ))).img 0 4999
      = (13 / 10) ^ 6 := by
    simp only [pipeline, peakLocator_one_one 1 one_pos, maxhoriz_one_one,
      resolveGeometry_default_one_one, render, forLoop_one, renderCell,
      cellScatter_peak_one_one, ht]
    norm_num [cellWrites, addAt, toneMap, toneVal, toneFinal]
  refine ⟨?_, ?_, hi, ?_⟩
  · simp only [pipeline, peakLocator_one_one 1 one_pos, maxhoriz_one_one,
      resolveGeometry_default_one_one]
  · simp only [pipeline, peakLocator_one_one 1 one_pos, maxhoriz_one_one,
      resolveGeometry_default_one_one]
  · rw [hi]
    norm_num

theorem toInt_neg_three_halves : toInt (-(3 / 2) : ℝ) = -1 := by
  have h : ¬ (0 : ℝ) ≤ -(3 / 2) := by norm_num
  simp only [toInt, if_neg h]
  rw [Int.ceil_eq_iff]
  norm_num

/-- C2: the code with `-y 1 -e -100 50` on the one-cell raster holding `0`. The resolved output
is `1 x 1` with `mpp = 50`; the cell has `pfy = -1.5`, `py = 0`, `fracy = -1.5`, `toadd = 1`,
and the only write is `profimg[0][0] += 2.5`, more than `toadd`. -/
theorem scatter_total_exceeds_toadd :
    resolvedConfig Real.sqrt ⟨0, 1, -100, 50, -1⟩ 1 1 (fun _ _ => (0 : ℝ))
      = ⟨1, 1, -100, 50, 50⟩ ∧
    runScatter Real.sqrt Real.rpow ⟨0, 1, -100, 50, -1⟩ 1 1 (fun _ _ => (0 : ℝ)) 0 0
      = ⟨0, -(3 / 2), 0, 0, 1, 0, -(3 / 2)⟩ ∧
    runWrites Real.sqrt Real.rpow ⟨0, 1, -100, 50, -1⟩ 1 1 (fun _ _ => (0 : ℝ)) 0 0
      = [(0, 0, 5 / 2)] ∧
    ¬ (totalWeight
          (runWrites Real.sqrt Real.rpow ⟨0, 1, -100, 50, -1⟩ 1 1 (fun _ _ => (0 : ℝ)) 0 0) ≤
        (runScatter Real.sqrt Real.rpow ⟨0, 1, -100, 50, -1⟩ 1 1 (fun _ _ => (0 : ℝ)) 0 0).toadd)
    := by
  have hp : peakLocator 1 1 (fun _ _ => (0 : ℝ)) = ⟨0, 0, 0⟩ := by
    simp [peakLocator, forLoop, peakStep]
  have hc : resolveGeometry (⟨0, 1, -100, 50, -1⟩ : Config ℝ) (Real.sqrt 2)
      = ⟨1, 1, -100, 50, 50⟩ := by
    simp only [resolveGeometry, resolveOx, resolveMpp, resolveOy]
    norm_num
    exact toInt_sqrt_two
  have hpfy : (1 : ℝ) / 2 + (-100 + 0 * (50 - -100)) / 50 = -(3 / 2) := by norm_num
  have hs : cellScatter Real.sqrt Real.rpow (⟨1, 1, -100, 50, 50⟩ : Config ℝ) (Real.sqrt 2)
      0 0 0 0 0 = ⟨0, -(3 / 2), 0, 0, 1, 0, -(3 / 2)⟩ := by
    simp only [cellScatter, hpfy, toInt_neg_three_halves]
    simp [toInt_zero]
  simp only [runWrites, runScatter, resolvedConfig, hp, maxhoriz_one_one, hc, hs,
    totalWeight_cellWrites]
  norm_num [cellWrites]

/-! ## Peak locator -/

/-- The cells already visited when the outer index is `k` and the inner index is `j`. -/
theorem seen_succ (ny k j ix iy : Nat) :
    ((ix < k ∧ iy < ny) ∨ (ix = k ∧ iy < j + 1)) ↔
      (((ix < k ∧ iy < ny) ∨ (ix = k ∧ iy < j)) ∨ (ix = k ∧ iy = j)) := by
  constructor
  · rintro (h | ⟨h1, h2⟩)
    · exact Or.inl (Or.inl h)
    · rcases Nat.lt_succ_iff_lt_or_eq.mp h2 with h3 | h3
      · exact Or.inl (Or.inr ⟨h1, h3⟩)
      · exact Or.inr ⟨h1, h3⟩
  · rintro ((h | ⟨h1, h2⟩) | ⟨h1, h2⟩)
    · exact Or.inl h
    · exact Or.inr ⟨h1, Nat.lt_succ_of_lt h2⟩
    · exact Or.inr ⟨h1, h2 ▸ Nat.lt_succ_self _⟩

theorem peakInv_init (dem : Nat → Nat → ℝ) (ny : Nat) : PeakInv dem ny 0 0 ⟨0, 0, 0⟩ := by
  refine ⟨?_, le_refl _, fun _ => ⟨rfl, rfl⟩, ?_⟩
  · rintro ix iy (⟨h, -⟩ | ⟨-, h⟩) <;> exact absurd h (Nat.not_lt_zero _)
  · intro h
    exact absurd h (lt_irrefl _)

theorem peakInv_step (dem : Nat → Nat → ℝ) (ny k j : Nat) (hj : j < ny) (p : Peak ℝ)
    (h : PeakInv dem ny k j p) : PeakInv dem ny k (j + 1) (peakStep dem k j p) := by
  obtain ⟨h1, h2, h3, h4⟩ := h
  unfold peakStep
  split_ifs with hgt
  · refine ⟨?_, ?_, ?_, ?_⟩
    · intro ix iy hs
      rcases (seen_succ ny k j ix iy).mp hs with hs | ⟨rfl, rfl⟩
      · exact le_of_lt (lt_of_le_of_lt (h1 ix iy hs) hgt)
      · exact le_refl _
    · exact le_of_lt (lt_of_le_of_lt h2 hgt)
    · intro h0
      have : (0 : ℝ) < dem k j := lt_of_le_of_lt h2 hgt
      exact absurd h0 this.ne.symm
    · intro _
      refine ⟨Or.inr ⟨rfl, Nat.lt_succ_self _⟩, rfl, ?_⟩
      intro ix iy hs he
      rcases (seen_succ ny k j ix iy).mp hs with hs | ⟨rfl, rfl⟩
      · have hle := h1 ix iy hs
        have : dem ix iy = dem k j := he
        rw [this] at hle
        exact absurd hgt (not_lt_of_le hle)
      · exact Or.inr ⟨rfl, le_refl _⟩
  · have hle : dem k j ≤ p.maxalt := le_of_not_lt hgt
    refine ⟨?_, h2, h3, ?_⟩
    · intro ix iy hs
      rcases (seen_succ ny k j ix iy).mp hs with hs | ⟨rfl, rfl⟩
      · exact h1 ix iy hs
      · exact hle
    · intro hpos
      obtain ⟨a, b, c⟩ := h4 hpos
      refine ⟨(seen_succ ny k j _ _).mpr (Or.inl a), b, ?_⟩
      intro ix iy hs he
      rcases (seen_succ ny k j ix iy).mp hs with hs | ⟨rfl, rfl⟩
      · exact c ix iy hs he
      · rcases a with ⟨a1, -⟩ | ⟨a1, a2⟩
        · exact Or.inl a1
        · exact Or.inr ⟨a1, le_of_lt a2⟩

theorem peakInv_inner (dem : Nat → Nat → ℝ) (ny k : Nat) (p : Peak ℝ)
    (h : PeakInv dem ny k 0 p) (j : Nat) (hj : j ≤ ny) :
    PeakInv dem ny k j (forLoop j (fun iy q => peakStep dem k iy q) p) := by
  induction j with
  | zero => exact h
  | succ j ih => exact peakInv_step dem ny k j hj _ (ih (Nat.le_of_succ_le hj))

theorem peakInv_next_row (dem : Nat → Nat → ℝ) (ny k : Nat) (p : Peak ℝ)
    (h : PeakInv dem ny k ny p) : PeakInv dem ny (k + 1) 0 p := by
  have hs : ∀ ix iy, ((ix < k + 1 ∧ iy < ny) ∨ (ix = k + 1 ∧ iy < 0)) →
      ((ix < k ∧ iy < ny) ∨ (ix = k ∧ iy < ny)) := by
    rintro ix iy (⟨a, b⟩ | ⟨-, b⟩)
    · rcases Nat.lt_succ_iff_lt_or_eq.mp a with a | a
      · exact Or.inl ⟨a, b⟩
      · exact Or.inr ⟨a, b⟩
    · exact absurd b (Nat.not_lt_zero _)
  obtain ⟨h1, h2, h3, h4⟩ := h
  refine ⟨fun ix iy s => h1 ix iy (hs ix iy s), h2, h3, ?_⟩
  intro hpos
  obtain ⟨a, b, c⟩ := h4 hpos
  refine ⟨?_, b, fun ix iy s => c ix iy (hs ix iy s)⟩
  rcases a with ⟨a1, a2⟩ | ⟨a1, a2⟩
  · exact Or.inl ⟨Nat.lt_succ_of_lt a1, a2⟩
  · exact Or.inl ⟨a1 ▸ Nat.lt_succ_self _, a2⟩

theorem peakInv_outer (dem : Nat → Nat → ℝ) (ny k : Nat) :
    PeakInv dem ny k 0 (forLoop k (fun ix p => forLoop ny (fun iy q => peakStep dem ix iy q) p)
      ⟨0, 0, 0⟩) := by
  induction k with
  | zero => exact peakInv_init dem ny
  | succ k ih => exact peakInv_next_row dem ny k _ (peakInv_inner dem ny k _ ih ny (le_refl _))

theorem peakInv_peakLocator (nx ny : Nat) (dem : Nat → Nat → ℝ) :
    PeakInv dem ny nx 0 (peakLocator nx ny dem) :=
  peakInv_outer dem ny nx

/-- C5. For a raster with at least one strictly positive sample the peak locator returns a cell
of the raster holding a maximum sample, with `maxalt` its value, and that cell is the first one
holding the maximum in scan order (`ix` outer, `iy` inner): no cell with smaller `ix`, or with
equal `ix` and smaller `iy`, holds the maximum value. -/
theorem peakLocator_first_maximum (nx ny : Nat) (dem : Nat → Nat → ℝ)
    (h : ∃ ix iy, ix < nx ∧ iy < ny ∧ 0 < dem ix iy) :
    (peakLocator nx ny dem).mx < nx ∧ (peakLocator nx ny dem).my < ny ∧
    dem (peakLocator nx ny dem).mx (peakLocator nx ny dem).my = (peakLocator nx ny dem).maxalt ∧
    (∀ ix iy, ix < nx → iy < ny → dem ix iy ≤ (peakLocator nx ny dem).maxalt) ∧
    (∀ ix iy, ix < nx → iy < ny →
      (ix < (peakLocator nx ny dem).mx ∨
        (ix = (peakLocator nx ny dem).mx ∧ iy < (peakLocator nx ny dem).my)) →
      dem ix iy ≠ (peakLocator nx ny dem).maxalt) := by
  show
    let p := peakLocator nx ny dem
    p.mx < nx ∧ p.my < ny ∧ dem p.mx p.my = p.maxalt ∧
    (∀ ix iy, ix < nx → iy < ny → dem ix iy ≤ p.maxalt) ∧
    (∀ ix iy, ix < nx → iy < ny → (ix < p.mx ∨ (ix = p.mx ∧ iy < p.my)) →
      dem ix iy ≠ p.maxalt)
  intro p
  obtain ⟨h1, -, -, h4⟩ := peakInv_peakLocator nx ny dem
  obtain ⟨jx, jy, hjx, hjy, hpos⟩ := h
  have hmax : 0 < p.maxalt := lt_of_lt_of_le hpos (h1 jx jy (Or.inl ⟨hjx, hjy⟩))
  obtain ⟨a, b, c⟩ := h4 hmax
  have hin : p.mx < nx ∧ p.my < ny := by
    rcases a with a | ⟨-, a⟩
    · exact a
    · exact absurd a (Nat.not_lt_zero _)
  refine ⟨hin.1, hin.2, b, fun ix iy hx hy => h1 ix iy (Or.inl ⟨hx, hy⟩), ?_⟩
  intro ix iy hx hy hlt he
  rcases c ix iy (Or.inl ⟨hx, hy⟩) he with c1 | ⟨c1, c2⟩
  · rcases hlt with l | ⟨l, -⟩
    · exact absurd c1 (Nat.lt_asymm l)
    · rw [l] at c1
      exact absurd c1 (lt_irrefl _)
  · rcases hlt with l | ⟨-, l⟩
    · rw [c1] at l
      exact absurd l (lt_irrefl _)
    · exact absurd l (not_lt_of_le c2)

/-- C5, on the 2x2 raster with samples `dem[0][0] = 0`, `dem[0][1] = 1`, `dem[1][0] = 1`,
`dem[1][1] = 1`. -/
theorem peakLocator_first_maximum_witness :
    (∃ ix iy, ix < 2 ∧ iy < 2 ∧
      0 < (fun ix iy => if ix = 0 ∧ iy = 0 then (0 : ℝ) else 1) ix iy) ∧
    (fun ix iy => if ix = 0 ∧ iy = 0 then (0 : ℝ) else 1)
        (peakLocator 2 2 (fun ix iy => if ix = 0 ∧ iy = 0 then (0 : ℝ) else 1)).mx
        (peakLocator 2 2 (fun ix iy => if ix = 0 ∧ iy = 0 then (0 : ℝ) else 1)).my
      = (peakLocator 2 2 (fun ix iy => if ix = 0 ∧ iy = 0 then (0 : ℝ) else 1)).maxalt :=
  ⟨⟨0, 1, by decide, by decide, by norm_num⟩,
    (peakLocator_first_maximum 2 2 (fun ix iy => if ix = 0 ∧ iy = 0 then 0 else 1)
      ⟨0, 1, by decide, by decide, by norm_num⟩).2.2.1⟩

/-- C6. For every non-empty raster whose samples all equal one value `v` that a raster can hold,
the peak locator returns `(ix, iy, value) = (0, 0, v)`; in particular an all-zero raster yields
`(0, 0, 0)`. The samples come from the raster loader, which scales them to `0..1` (lines
127-129), so they are non-negative (`0 ≤ v`); no upper bound on `v` is assumed. -/
theorem peakLocator_constant (nx ny : Nat) (dem : Nat → Nat → ℝ) (v : ℝ) (hnx : 0 < nx)
    (hny : 0 < ny) (hv : 0 ≤ v) (hall : ∀ ix iy, ix < nx → iy < ny → dem ix iy = v) :
    (peakLocator nx ny dem).mx = 0 ∧ (peakLocator nx ny dem).my = 0 ∧
      (peakLocator nx ny dem).maxalt = v := by
  obtain ⟨h1, h2, h3, h4⟩ := peakInv_peakLocator nx ny dem
  rcases hv.lt_or_eq with hpos | hz
  · have h00 : v ≤ (peakLocator nx ny dem).maxalt := by
      have := h1 0 0 (Or.inl ⟨hnx, hny⟩)
      rwa [hall 0 0 hnx hny] at this
    obtain ⟨a, b, c⟩ := h4 (lt_of_lt_of_le hpos h00)
    have hin : (peakLocator nx ny dem).mx < nx ∧ (peakLocator nx ny dem).my < ny := by
      rcases a with a | ⟨-, a⟩
      · exact a
      · exact absurd a (Nat.not_lt_zero _)
    have hval : (peakLocator nx ny dem).maxalt = v := by
      rw [← b]
      exact hall _ _ hin.1 hin.2
    have h0 : dem 0 0 = (peakLocator nx ny dem).maxalt := by
      rw [hval]
      exact hall 0 0 hnx hny
    rcases c 0 0 (Or.inl ⟨hnx, hny⟩) h0 with c1 | ⟨c1, c2⟩
    · exact absurd c1 (Nat.not_lt_zero _)
    · exact ⟨c1, Nat.le_zero.mp c2, hval⟩
  · have hmax : (peakLocator nx ny dem).maxalt = 0 := by
      by_contra hne
      have hpos : 0 < (peakLocator nx ny dem).maxalt := lt_of_le_of_ne h2 (Ne.symm hne)
      obtain ⟨a, b, -⟩ := h4 hpos
      have hin : (peakLocator nx ny dem).mx < nx ∧ (peakLocator nx ny dem).my < ny := by
        rcases a with a | ⟨-, a⟩
        · exact a
        · exact absurd a (Nat.not_lt_zero _)
      rw [hall _ _ hin.1 hin.2, ← hz] at b
      exact hne b.symm
    obtain ⟨a, b⟩ := h3 hmax
    exact ⟨a, b, by rw [hmax, hz]⟩

/-- C6, on the 2x3 raster whose samples all equal `1/2`: the first cell replaces the initial
`maxalt = 0`, no later cell exceeds it, and the peak is `(0, 0, 1/2)`. -/
theorem peakLocator_constant_witness :
    (0 < 2 ∧ 0 < 3 ∧ (0 : ℝ) ≤ 1 / 2 ∧
      ∀ ix iy : Nat, ix < 2 → iy < 3 → (fun _ _ => (1 / 2 : ℝ)) ix iy = 1 / 2) ∧
    ((peakLocator 2 3 (fun _ _ => (1 / 2 : ℝ))).mx = 0 ∧
      (peakLocator 2 3 (fun _ _ => (1 / 2 : ℝ))).my = 0 ∧
      (peakLocator 2 3 (fun _ _ => (1 / 2 : ℝ))).maxalt = 1 / 2) :=
  ⟨⟨by decide, by decide, by norm_num, fun _ _ _ _ => rfl⟩,
    peakLocator_constant 2 3 (fun _ _ => 1 / 2) (1 / 2) (by decide) (by decide) (by norm_num)
      (fun _ _ _ _ => rfl)⟩

/-! ## findIntersection -/

theorem fmod_of_lt (x : ℝ) (h0 : 0 ≤ x) (h1 : x < 360) : fmod x 360 = x := by
  have h : toInt (x / 360) = 0 := by
    apply toInt_eq_of_bounds _ 0 (by positivity)
    · simp only [Int.cast_zero]
      positivity
    · simp only [Int.cast_zero, zero_add]
      rw [div_lt_one (by norm_num)]
      exact h1
  simp [fmod, h]

theorem trig_first_quadrant (a : ℝ) (h0 : 0 ≤ a) (h1 : a < Real.pi / 2) :
    0 < Real.cos a ∧ 0 ≤ Real.sin a := by
  have hpi := Real.pi_pos
  exact ⟨Real.cos_pos_of_mem_Ioo ⟨by linarith, h1⟩,
    Real.sin_nonneg_of_nonneg_of_le_pi h0 (by linarith)⟩

theorem trig_second_quadrant (a : ℝ) (h0 : Real.pi / 2 < a) (h1 : a < Real.pi) :
    Real.cos a < 0 ∧ 0 < Real.sin a := by
  have hpi := Real.pi_pos
  exact ⟨Real.cos_neg_of_pi_div_two_lt_of_lt h0 (by linarith),
    Real.sin_pos_of_pos_of_lt_pi (by linarith) h1⟩

theorem trig_third_quadrant (a : ℝ) (h0 : Real.pi < a) (h1 : a < 3 * Real.pi / 2) :
    Real.cos a < 0 ∧ Real.sin a < 0 := by
  have hpi := Real.pi_pos
  refine ⟨Real.cos_neg_of_pi_div_two_lt_of_lt (by linarith) (by linarith), ?_⟩
  have h : Real.sin (a - 2 * Real.pi) < 0 :=
    Real.sin_neg_of_neg_of_neg_pi_lt (by linarith) (by linarith)
  rwa [Real.sin_sub_two_pi] at h

theorem trig_fourth_quadrant (a : ℝ) (h0 : 3 * Real.pi / 2 < a) (h1 : a < 2 * Real.pi) :
    0 < Real.cos a ∧ Real.sin a < 0 := by
  have hpi := Real.pi_pos
  constructor
  · have h : 0 < Real.cos (a - 2 * Real.pi) :=
      Real.cos_pos_of_mem_Ioo ⟨by linarith, by linarith⟩
    rwa [Real.cos_sub_two_pi] at h
  · have h : Real.sin (a - 2 * Real.pi) < 0 :=
      Real.sin_neg_of_neg_of_neg_pi_lt (by linarith) (by linarith)
    rwa [Real.sin_sub_two_pi] at h

theorem right_exit (nx ny px py C S : ℝ) (hpx : px < nx) (hC : 0 < C)
    (h0 : 0 ≤ py + S / C * (nx - px)) (h1 : py + S / C * (nx - px) ≤ ny) :
    OnBoundary nx ny (nx, py + S / C * (nx - px)) ∧
      OnRay px py C S (nx, py + S / C * (nx - px)) := by
  have hC0 : C ≠ 0 := hC.ne.symm
  refine ⟨Or.inl ⟨Or.inr rfl, h0, h1⟩, (nx - px) / C, div_pos (by linarith) hC, ?_, ?_⟩
  · show nx = px + (nx - px) / C * C
    rw [div_mul_cancel₀ _ hC0]
    ring
  · show py + S / C * (nx - px) = py + (nx - px) / C * S
    ring

theorem left_exit (nx ny px py C S : ℝ) (hpx : 0 < px) (hC : C < 0)
    (h0 : 0 ≤ py - S / C * px) (h1 : py - S / C * px ≤ ny) :
    OnBoundary nx ny (0, py - S / C * px) ∧ OnRay px py C S (0, py - S / C * px) := by
  have hC0 : C ≠ 0 := hC.ne
  refine ⟨Or.inl ⟨Or.inl rfl, h0, h1⟩, -(px / C),
    neg_pos.mpr (div_neg_of_pos_of_neg hpx hC), ?_, ?_⟩
  · show (0 : ℝ) = px + -(px / C) * C
    rw [neg_mul, div_mul_cancel₀ _ hC0]
    ring
  · show py - S / C * px = py + -(px / C) * S
    ring

theorem top_exit (nx ny px py C S : ℝ) (hpy : py < ny) (hS : 0 < S)
    (h0 : 0 ≤ px + (ny - py) / (S / C)) (h1 : px + (ny - py) / (S / C) ≤ nx) :
    OnBoundary nx ny (px + (ny - py) / (S / C), ny) ∧
      OnRay px py C S (px + (ny - py) / (S / C), ny) := by
  have hS0 : S ≠ 0 := hS.ne.symm
  refine ⟨Or.inr ⟨Or.inr rfl, h0, h1⟩, (ny - py) / S, div_pos (by linarith) hS, ?_, ?_⟩
  · show px + (ny - py) / (S / C) = px + (ny - py) / S * C
    rw [div_div_eq_mul_div]
    ring
  · show ny = py + (ny - py) / S * S
    rw [div_mul_cancel₀ _ hS0]
    ring

theorem bottom_exit (nx ny px py C S : ℝ) (hpy : 0 < py) (hS : S < 0)
    (h0 : 0 ≤ px - py / (S / C)) (h1 : px - py / (S / C) ≤ nx) :
    OnBoundary nx ny (px - py / (S / C), 0) ∧ OnRay px py C S (px - py / (S / C), 0) := by
  have hS0 : S ≠ 0 := hS.ne
  refine ⟨Or.inr ⟨Or.inl rfl, h0, h1⟩, -(py / S),
    neg_pos.mpr (div_neg_of_pos_of_neg hpy hS), ?_, ?_⟩
  · show px - py / (S / C) = px + -(py / S) * C
    rw [div_div_eq_mul_div]
    ring
  · show (0 : ℝ) = py + -(py / S) * S
    rw [neg_mul, div_mul_cancel₀ _ hS0]
    ring

theorem findIntersection_first_quadrant (nx ny px py alpha : ℝ)
    (hpx0 : 0 < px) (hpx : px < nx) (hpy0 : 0 < py) (hpy : py < ny)
    (h0 : 0 ≤ alpha) (h1 : alpha < 90) :
    OnBoundary nx ny (findIntersection Real.tan Real.pi px py alpha nx ny) ∧
      OnRay px py (Real.cos (alpha * Real.pi / 180)) (Real.sin (alpha * Real.pi / 180))
        (findIntersection Real.tan Real.pi px py alpha nx ny) := by
  have hpi := Real.pi_pos
  simp only [findIntersection, fmod_of_lt alpha h0 (by linarith)]
  have ha0 : 0 ≤ alpha * Real.pi / 180 := by positivity
  have ha1 : alpha * Real.pi / 180 < Real.pi / 2 := by nlinarith
  generalize alpha * Real.pi / 180 = a at ha0 ha1 ⊢
  obtain ⟨hC, hS⟩ := trig_first_quadrant a ha0 ha1
  rw [Real.tan_eq_sin_div_cos]
  have hT0 : 0 ≤ Real.sin a / Real.cos a := div_nonneg hS hC.le
  have hyr0 : py + Real.sin a / Real.cos a * (nx - px) ≥ 0 := by
    have : 0 ≤ Real.sin a / Real.cos a * (nx - px) := mul_nonneg hT0 (by linarith)
    linarith
  by_cases hy : py + Real.sin a / Real.cos a * (nx - px) ≤ ny
  · rw [if_pos ⟨Or.inl ha1, hyr0, hy⟩]
    exact right_exit nx ny px py _ _ hpx hC hyr0 hy
  · rw [if_neg (fun h => hy h.2.2), if_neg (fun h => absurd h.1.1 (not_lt_of_gt ha1))]
    have hy2 : ny - py < Real.sin a / Real.cos a * (nx - px) := by linarith
    have hTpos : 0 < Real.sin a / Real.cos a := by
      rcases hT0.lt_or_eq with h | h
      · exact h
      · rw [← h] at hy2
        linarith
    have hSpos : 0 < Real.sin a := by
      rcases hS.lt_or_eq with h | h
      · exact h
      · rw [← h] at hTpos
        simp at hTpos
    have hapos : 0 < a := by
      rcases ha0.lt_or_eq with h | h
      · exact h
      · rw [← h] at hSpos
        simp at hSpos
    have hx0 : px + (ny - py) / (Real.sin a / Real.cos a) ≥ 0 := by
      have : 0 ≤ (ny - py) / (Real.sin a / Real.cos a) := div_nonneg (by linarith) hTpos.le
      linarith
    have hx1 : px + (ny - py) / (Real.sin a / Real.cos a) ≤ nx := by
      have : (ny - py) / (Real.sin a / Real.cos a) ≤ nx - px := by
        rw [div_le_iff₀ hTpos]
        linarith
      linarith
    rw [if_pos ⟨⟨hapos, by linarith⟩, hx0, hx1⟩]
    exact top_exit nx ny px py _ _ hpy hSpos hx0 hx1

theorem findIntersection_fourth_quadrant (nx ny px py alpha : ℝ)
    (hpx0 : 0 < px) (hpx : px < nx) (hpy0 : 0 < py) (hpy : py < ny)
    (h0 : 270 < alpha) (h1 : alpha < 360) :
    OnBoundary nx ny (findIntersection Real.tan Real.pi px py alpha nx ny) ∧
      OnRay px py (Real.cos (alpha * Real.pi / 180)) (Real.sin (alpha * Real.pi / 180))
        (findIntersection Real.tan Real.pi px py alpha nx ny) := by
  have hpi := Real.pi_pos
  simp only [findIntersection, fmod_of_lt alpha (by linarith) h1]
  have ha0 : 3 * Real.pi / 2 < alpha * Real.pi / 180 := by nlinarith
  have ha1 : alpha * Real.pi / 180 < 2 * Real.pi := by nlinarith
  generalize alpha * Real.pi / 180 = a at ha0 ha1 ⊢
  obtain ⟨hC, hS⟩ := trig_fourth_quadrant a ha0 ha1
  rw [Real.tan_eq_sin_div_cos]
  have hT : Real.sin a / Real.cos a < 0 := div_neg_of_neg_of_pos hS hC
  have hyr1 : py + Real.sin a / Real.cos a * (nx - px) ≤ ny := by
    have : Real.sin a / Real.cos a * (nx - px) ≤ 0 :=
      mul_nonpos_of_nonpos_of_nonneg hT.le (by linarith)
    linarith
  by_cases hy : py + Real.sin a / Real.cos a * (nx - px) ≥ 0
  · rw [if_pos ⟨Or.inr ha0, hy, hyr1⟩]
    exact right_exit nx ny px py _ _ hpx hC hy hyr1
  · rw [if_neg (fun h => hy h.2.1), if_neg (fun h => absurd h.1.2 (not_lt_of_gt ha0)),
      if_neg (fun h => absurd h.1.2 (not_lt_of_gt (by linarith)))]
    have hy2 : py + Real.sin a / Real.cos a * (nx - px) < 0 := lt_of_not_ge hy
    have hx0 : px - py / (Real.sin a / Real.cos a) ≥ 0 := by
      have : py / (Real.sin a / Real.cos a) ≤ 0 := div_nonpos_of_nonneg_of_nonpos hpy0.le hT.le
      linarith
    have hx1 : px - py / (Real.sin a / Real.cos a) ≤ nx := by
      have : -(nx - px) ≤ py / (Real.sin a / Real.cos a) := by
        rw [le_div_iff_of_neg hT]
        linarith
      linarith
    rw [if_pos ⟨⟨by linarith, ha1⟩, hx0, hx1⟩]
    exact bottom_exit nx ny px py _ _ hpy0 hS hx0 hx1

theorem findIntersection_left_half (nx ny px py alpha : ℝ)
    (hpx0 : 0 < px) (hpx : px < nx) (hpy0 : 0 < py) (hpy : py < ny)
    (h0 : 90 < alpha) (h1 : alpha < 270) :
    OnBoundary nx ny (findIntersection Real.tan Real.pi px py alpha nx ny) ∧
      OnRay px py (Real.cos (alpha * Real.pi / 180)) (Real.sin (alpha * Real.pi / 180))
        (findIntersection Real.tan Real.pi px py alpha nx ny) := by
  have hpi := Real.pi_pos
  simp only [findIntersection, fmod_of_lt alpha (by linarith) (by linarith)]
  have ha0 : Real.pi / 2 < alpha * Real.pi / 180 := by nlinarith
  have ha1 : alpha * Real.pi / 180 < 3 * Real.pi / 2 := by nlinarith
  generalize alpha * Real.pi / 180 = a at ha0 ha1 ⊢
  have hC : Real.cos a < 0 := Real.cos_neg_of_pi_div_two_lt_of_lt ha0 (by linarith)
  rw [Real.tan_eq_sin_div_cos]
  rw [if_neg (fun h => h.1.elim (fun h => absurd h (not_lt_of_gt ha0))
    (fun h => absurd h (not_lt_of_gt ha1)))]
  by_cases hy : py - Real.sin a / Real.cos a * px ≥ 0 ∧ py - Real.sin a / Real.cos a * px ≤ ny
  · rw [if_pos ⟨⟨ha0, ha1⟩, hy⟩]
    exact left_exit nx ny px py _ _ hpx0 hC hy.1 hy.2
  · rw [if_neg (fun h => hy h.2)]
    by_cases hlow : py - Real.sin a / Real.cos a * px ≥ 0
    · -- the left edge is missed above: the ray leaves through the top
      have hhigh : ny < py - Real.sin a / Real.cos a * px := by
        by_contra hc
        exact hy ⟨hlow, le_of_not_lt hc⟩
      have hT : Real.sin a / Real.cos a < 0 := by
        by_contra hc
        have : 0 ≤ Real.sin a / Real.cos a * px := mul_nonneg (le_of_not_lt hc) hpx0.le
        linarith
      have hS : 0 < Real.sin a := by
        by_contra hc
        have : 0 ≤ Real.sin a / Real.cos a := div_nonneg_of_nonpos (le_of_not_lt hc) hC.le
        linarith
      have halt : a < Real.pi := by
        by_contra hc
        rcases (le_of_not_lt hc).lt_or_eq with h | h
        · have := (trig_third_quadrant a h ha1).2
          linarith
        · rw [← h] at hS
          simp at hS
      have hx0 : px + (ny - py) / (Real.sin a / Real.cos a) ≥ 0 := by
        have : -px ≤ (ny - py) / (Real.sin a / Real.cos a) := by
          rw [le_div_iff_of_neg hT]
          linarith
        linarith
      have hx1 : px + (ny - py) / (Real.sin a / Real.cos a) ≤ nx := by
        have : (ny - py) / (Real.sin a / Real.cos a) ≤ 0 :=
          div_nonpos_of_nonneg_of_nonpos (by linarith) hT.le
        linarith
      rw [if_pos ⟨⟨by linarith, halt⟩, hx0, hx1⟩]
      exact top_exit nx ny px py _ _ hpy hS hx0 hx1
    · -- the left edge is missed below: the ray leaves through the bottom
      have hneg : py - Real.sin a / Real.cos a * px < 0 := lt_of_not_ge hlow
      have hT : 0 < Real.sin a / Real.cos a := by
        by_contra hc
        have : Real.sin a / Real.cos a * px ≤ 0 :=
          mul_nonpos_of_nonpos_of_nonneg (le_of_not_lt hc) hpx0.le
        linarith
      have hS : Real.sin a < 0 := by
        by_contra hc
        have : Real.sin a / Real.cos a ≤ 0 := div_nonpos_of_nonneg_of_nonpos (le_of_not_lt hc) hC.le
        linarith
      have hagt : Real.pi < a := by
        by_contra hc
        have := Real.sin_nonneg_of_nonneg_of_le_pi (by linarith : 0 ≤ a) (le_of_not_lt hc)
        linarith
      have hx0 : px - py / (Real.sin a / Real.cos a) ≥ 0 := by
        have : py / (Real.sin a / Real.cos a) ≤ px := by
          rw [div_le_iff₀ hT]
          linarith
        linarith
      have hx1 : px - py / (Real.sin a / Real.cos a) ≤ nx := by
        have : 0 ≤ py / (Real.sin a / Real.cos a) := div_nonneg hpy0.le hT.le
        linarith
      rw [if_neg (fun h => absurd h.1.2 (not_lt_of_gt hagt)),
        if_pos ⟨⟨hagt, by linarith⟩, hx0, hx1⟩]
      exact bottom_exit nx ny px py _ _ hpy0 hS hx0 hx1

theorem findIntersection_at_0 (nx ny px py : ℝ) (hpy0 : 0 ≤ py) (hpy : py ≤ ny) :
    findIntersection Real.tan Real.pi px py 0 nx ny = (nx, py) := by
  have hpi := Real.pi_pos
  simp only [findIntersection, fmod_of_lt 0 (le_refl _) (by norm_num)]
  have ha : (0 : ℝ) * Real.pi / 180 = 0 := by ring
  rw [ha, Real.tan_zero]
  have hy : py + 0 * (nx - px) = py := by ring
  rw [hy, if_pos ⟨Or.inl (by linarith), hpy0, hpy⟩]

theorem findIntersection_at_90 (nx ny px py : ℝ) (hpx0 : 0 ≤ px) (hpx : px ≤ nx) :
    findIntersection Real.tan Real.pi px py 90 nx ny = (px, ny) := by
  have hpi := Real.pi_pos
  simp only [findIntersection, fmod_of_lt 90 (by norm_num) (by norm_num)]
  have ha : (90 : ℝ) * Real.pi / 180 = Real.pi / 2 := by ring
  rw [ha, Real.tan_pi_div_two]
  have hx : px + (ny - py) / 0 = px := by simp
  rw [if_neg (fun h => h.1.elim (fun h => absurd h (lt_irrefl _))
      (fun h => absurd h (not_lt_of_gt (by linarith)))),
    if_neg (fun h => absurd h.1.1 (lt_irrefl _)), hx,
    if_pos ⟨⟨by linarith, by linarith⟩, hpx0, hpx⟩]

theorem findIntersection_at_180 (nx ny px py : ℝ) (hpy0 : 0 ≤ py) (hpy : py ≤ ny) :
    findIntersection Real.tan Real.pi px py 180 nx ny = (0, py) := by
  have hpi := Real.pi_pos
  simp only [findIntersection, fmod_of_lt 180 (by norm_num) (by norm_num)]
  have ha : (180 : ℝ) * Real.pi / 180 = Real.pi := by ring
  rw [ha, Real.tan_pi]
  have hy : py - 0 * px = py := by ring
  have hy2 : py + 0 * (nx - px) = py := by ring
  rw [hy, hy2, if_neg (fun h => h.1.elim (fun h => absurd h (not_lt_of_gt (by linarith)))
      (fun h => absurd h (not_lt_of_gt (by linarith)))),
    if_pos ⟨⟨by linarith, by linarith⟩, hpy0, hpy⟩]

theorem tan_three_pi_div_two : Real.tan (3 * Real.pi / 2) = 0 := by
  have h : 3 * Real.pi / 2 = Real.pi / 2 + Real.pi := by ring
  rw [Real.tan_eq_sin_div_cos, h, Real.cos_add_pi, Real.cos_pi_div_two]
  simp

theorem findIntersection_at_270 (nx ny px py : ℝ) (hpx0 : 0 ≤ px) (hpx : px ≤ nx) :
    findIntersection Real.tan Real.pi px py 270 nx ny = (px, 0) := by
  have hpi := Real.pi_pos
  simp only [findIntersection, fmod_of_lt 270 (by norm_num) (by norm_num)]
  have ha : (270 : ℝ) * Real.pi / 180 = 3 * Real.pi / 2 := by ring
  rw [ha, tan_three_pi_div_two]
  have hx : px - py / 0 = px := by simp
  rw [if_neg (fun h => h.1.elim (fun h => absurd h (not_lt_of_gt (by linarith)))
      (fun h => absurd h (lt_irrefl _))),
    if_neg (fun h => absurd h.1.2 (lt_irrefl _)),
    if_neg (fun h => absurd h.1.2 (not_lt_of_gt (by linarith))), hx,
    if_pos ⟨⟨by linarith, by linarith⟩, hpx0, hpx⟩]

theorem findIntersection_in_range (nx ny px py alpha : ℝ)
    (hpx0 : 0 < px) (hpx : px < nx) (hpy0 : 0 < py) (hpy : py < ny)
    (h0 : 0 ≤ alpha) (h1 : alpha < 360) :
    OnBoundary nx ny (findIntersection Real.tan Real.pi px py alpha nx ny) ∧
      OnRay px py (Real.cos (alpha * Real.pi / 180)) (Real.sin (alpha * Real.pi / 180))
        (findIntersection Real.tan Real.pi px py alpha nx ny) := by
  rcases lt_trichotomy alpha 90 with h | h | h
  · exact findIntersection_first_quadrant nx ny px py alpha hpx0 hpx hpy0 hpy h0 h
  · subst h
    rw [findIntersection_at_90 nx ny px py hpx0.le hpx.le]
    have ha : (90 : ℝ) * Real.pi / 180 = Real.pi / 2 := by ring
    rw [ha, Real.cos_pi_div_two, Real.sin_pi_div_two]
    exact ⟨Or.inr ⟨Or.inr rfl, hpx0.le, hpx.le⟩, ny - py, by linarith, by simp, by simp⟩
  · rcases lt_trichotomy alpha 270 with g | g | g
    · exact findIntersection_left_half nx ny px py alpha hpx0 hpx hpy0 hpy h g
    · subst g
      rw [findIntersection_at_270 nx ny px py hpx0.le hpx.le]
      have ha : (270 : ℝ) * Real.pi / 180 = Real.pi / 2 + Real.pi := by ring
      rw [ha, Real.cos_add_pi, Real.sin_add_pi, Real.cos_pi_div_two, Real.sin_pi_div_two]
      exact ⟨Or.inr ⟨Or.inl rfl, hpx0.le, hpx.le⟩, py, hpy0, by simp, by simp⟩
    · exact findIntersection_fourth_quadrant nx ny px py alpha hpx0 hpx hpy0 hpy g h1

/-- C10. For a point strictly inside the box `[0,nx] x [0,ny]` and an angle `alpha` in
`[0, 360)` degrees, `findIntersection` returns a point of the box boundary that lies on the ray
from `(px, py)` in direction `(cos alpha, sin alpha)` at a parameter `t > 0`. For
`nx = ny = 100` and the point `(50, 50)`: `0` gives `(100, 50)`, `90` gives `(50, 100)`,
`180` gives `(0, 50)`, `270` gives `(50, 0)`. Real arithmetic, with `Real.tan` (which is `0` at
`pi/2` and `3 pi/2`, so that the quotients by it in the top and bottom branches are `0`). -/
theorem findIntersection_exits_box :
    (∀ nx ny px py alpha : ℝ, 0 < nx → 0 < ny → 0 < px → px < nx → 0 < py → py < ny →
      0 ≤ alpha → alpha < 360 →
      OnBoundary nx ny (findIntersection Real.tan Real.pi px py alpha nx ny) ∧
      OnRay px py (Real.cos (alpha * Real.pi / 180)) (Real.sin (alpha * Real.pi / 180))
        (findIntersection Real.tan Real.pi px py alpha nx ny)) ∧
    findIntersection Real.tan Real.pi 50 50 0 100 100 = (100, 50) ∧
    findIntersection Real.tan Real.pi 50 50 90 100 100 = (50, 100) ∧
    findIntersection Real.tan Real.pi 50 50 180 100 100 = (0, 50) ∧
    findIntersection Real.tan Real.pi 50 50 270 100 100 = (50, 0) := by
  refine ⟨?_, findIntersection_at_0 100 100 50 50 (by norm_num) (by norm_num),
    findIntersection_at_90 100 100 50 50 (by norm_num) (by norm_num),
    findIntersection_at_180 100 100 50 50 (by norm_num) (by norm_num),
    findIntersection_at_270 100 100 50 50 (by norm_num) (by norm_num)⟩
  intro nx ny px py alpha _ _ hpx0 hpx hpy0 hpy h0 h1
  exact findIntersection_in_range nx ny px py alpha hpx0 hpx hpy0 hpy h0 h1

/-- C10, at `nx = ny = 100`, `(px, py) = (50, 50)`, `alpha = 45`. -/
theorem findIntersection_exits_box_witness :
    ((0 : ℝ) < 100 ∧ (0 : ℝ) < 50 ∧ (50 : ℝ) < 100 ∧ (0 : ℝ) ≤ 45 ∧ (45 : ℝ) < 360) ∧
    OnBoundary 100 100 (findIntersection Real.tan Real.pi 50 50 45 100 100) ∧
    OnRay 50 50 (Real.cos (45 * Real.pi / 180)) (Real.sin (45 * Real.pi / 180))
      (findIntersection Real.tan Real.pi 50 50 45 100 100) :=
  ⟨by norm_num, findIntersection_exits_box.1 100 100 50 50 45 (by norm_num) (by norm_num)
    (by norm_num) (by norm_num) (by norm_num) (by norm_num) (by norm_num) (by norm_num)⟩

/-! ## maxhoriz as the bound of the horizontal axis -/

/-- One axis of `maxhorizsq`: the integer-division test selects an integer that is at least `1`,
at least the peak offset and at least the axis length minus the peak offset. -/
theorem axis_choice (n m : Nat) (hm : m < n) :
    (m > n / 2 → n - m ≤ m ∧ 1 ≤ m) ∧ (¬ m > n / 2 → m ≤ n - m ∧ 1 ≤ n - m) := by
  constructor
  · intro h
    omega
  · intro h
    omega

theorem axis_term_eq_max (n m : Nat) (hm : m < n) :
    (if m > n / 2 then (m : ℝ) else (((n : Int) - (m : Int) : Int) : ℝ)) =
      max (m : ℝ) ((n : ℝ) - (m : ℝ)) := by
  obtain ⟨h1, h2⟩ := axis_choice n m hm
  split_ifs with h
  · have : ((n - m : Nat) : ℝ) ≤ (m : ℝ) := by exact_mod_cast (h1 h).1
    rw [Nat.cast_sub hm.le] at this
    rw [max_eq_left this]
  · have : (m : ℝ) ≤ ((n - m : Nat) : ℝ) := by exact_mod_cast (h2 h).1
    rw [Nat.cast_sub hm.le] at this
    rw [max_eq_right this]
    push_cast
    ring

theorem axis_term_ge_one (n m : Nat) (hm : m < n) :
    (1 : ℝ) ≤ (if m > n / 2 then (m : ℝ) else (((n : Int) - (m : Int) : Int) : ℝ)) := by
  rw [axis_term_eq_max n m hm]
  obtain ⟨h1, h2⟩ := axis_choice n m hm
  by_cases h : m > n / 2
  · have : (1 : ℝ) ≤ (m : ℝ) := by exact_mod_cast (h1 h).2
    exact le_max_of_le_left this
  · have : ((1 : Nat) : ℝ) ≤ ((n - m : Nat) : ℝ) := by exact_mod_cast (h2 h).2
    rw [Nat.cast_sub hm.le] at this
    exact le_max_of_le_right (by simpa using this)

theorem axis_dist_le (n m i : Nat) (hm : m < n) (hi : i < n) :
    (((i : Int) - (m : Int) : Int) : ℝ) * (((i : Int) - (m : Int) : Int) : ℝ) ≤
      (if m > n / 2 then (m : ℝ) else (((n : Int) - (m : Int) : Int) : ℝ)) ^ 2 := by
  rw [axis_term_eq_max n m hm]
  have hi0 : (0 : ℝ) ≤ (i : ℝ) := Nat.cast_nonneg i
  have hm0 : (0 : ℝ) ≤ (m : ℝ) := Nat.cast_nonneg m
  have hin : (i : ℝ) ≤ (n : ℝ) := by exact_mod_cast hi.le
  have h1 : ((i : ℝ) - (m : ℝ)) ≤ max (m : ℝ) ((n : ℝ) - (m : ℝ)) :=
    le_max_of_le_right (by linarith)
  have h2 : -(max (m : ℝ) ((n : ℝ) - (m : ℝ))) ≤ ((i : ℝ) - (m : ℝ)) := by
    have := le_max_left (m : ℝ) ((n : ℝ) - (m : ℝ))
    linarith
  have := sq_le_sq' h2 h1
  push_cast
  nlinarith

/-- C14. For a peak inside the raster the code's `maxhorizsq`, which tests `mx > nx/2` and
`my > ny/2` with integer division, equals `max(mx, nx-mx)^2 + max(my, ny-my)^2`. -/
theorem maxhorizsq_eq_max (nx ny mx my : Nat) (hnx : 1 ≤ nx) (hny : 1 ≤ ny) (hmx : mx < nx)
    (hmy : my < ny) :
    (maxhorizsq nx ny mx my : ℝ) =
      (max (mx : ℝ) ((nx : ℝ) - (mx : ℝ))) ^ 2 + (max (my : ℝ) ((ny : ℝ) - (my : ℝ))) ^ 2 ∧
    ((mx > nx / 2 ↔ nx - mx < mx) ∧ (my > ny / 2 ↔ ny - my < my)) := by
  have _ := hnx
  have _ := hny
  refine ⟨?_, ⟨by omega, by omega⟩⟩
  unfold maxhorizsq
  rw [axis_term_eq_max nx mx hmx, axis_term_eq_max ny my hmy]

/-- C14, at the 5x4 raster with the peak at `(2, 3)`: `max(2,3)^2 + max(3,1)^2`. -/
theorem maxhorizsq_eq_max_witness :
    (1 ≤ 5 ∧ 1 ≤ 4 ∧ 2 < 5 ∧ 3 < 4) ∧
    (maxhorizsq 5 4 2 3 : ℝ) =
      (max ((2 : Nat) : ℝ) (((5 : Nat) : ℝ) - ((2 : Nat) : ℝ))) ^ 2
        + (max ((3 : Nat) : ℝ) (((4 : Nat) : ℝ) - ((3 : Nat) : ℝ))) ^ 2 :=
  ⟨by decide, (maxhorizsq_eq_max 5 4 2 3 (by decide) (by decide) (by decide) (by decide)).1⟩
theorem distsq_le_maxhorizsq (nx ny mx my ix iy : Nat) (hmx : mx < nx) (hmy : my < ny)
    (hix : ix < nx) (hiy : iy < ny) :
    (((ix : Int) - (mx : Int) : Int) : ℝ) * (((ix : Int) - (mx : Int) : Int) : ℝ)
      + (((iy : Int) - (my : Int) : Int) : ℝ) * (((iy : Int) - (my : Int) : Int) : ℝ)
      ≤ maxhorizsq nx ny mx my := by
  unfold maxhorizsq
  exact add_le_add (axis_dist_le nx mx ix hmx hix) (axis_dist_le ny my iy hmy hiy)

theorem two_le_maxhorizsq (nx ny mx my : Nat) (hmx : mx < nx) (hmy : my < ny) :
    (2 : ℝ) ≤ maxhorizsq nx ny mx my := by
  unfold maxhorizsq
  have h1 := axis_term_ge_one nx mx hmx
  have h2 := axis_term_ge_one ny my hmy
  nlinarith

theorem maxhoriz_pos (nx ny mx my : Nat) (hmx : mx < nx) (hmy : my < ny) :
    0 < maxhoriz Real.sqrt nx ny mx my := by
  unfold maxhoriz
  apply Real.sqrt_pos.mpr
  have := two_le_maxhorizsq nx ny mx my hmx hmy
  linarith

theorem one_le_maxhoriz (nx ny mx my : Nat) (hmx : mx < nx) (hmy : my < ny) :
    1 ≤ maxhoriz Real.sqrt nx ny mx my := by
  unfold maxhoriz
  rw [Real.le_sqrt' (by norm_num)]
  have := two_le_maxhorizsq nx ny mx my hmx hmy
  linarith

/-- C15. For a peak and a source cell inside the raster, `distsq ≤ maxhorizsq`; hence the
fractional output column `pfx = ox * sqrt(distsq) / maxhoriz` satisfies `0 ≤ pfx ≤ ox` for every
`ox ≥ 0`. -/
theorem pfx_in_range (c : Config ℝ) (nx ny mx my ix iy : Nat) (e : ℝ) (hmx : mx < nx)
    (hmy : my < ny) (hix : ix < nx) (hiy : iy < ny) (hox : 0 ≤ c.ox) :
    (((ix : Int) - (mx : Int) : Int) : ℝ) * (((ix : Int) - (mx : Int) : Int) : ℝ)
      + (((iy : Int) - (my : Int) : Int) : ℝ) * (((iy : Int) - (my : Int) : Int) : ℝ)
      ≤ maxhorizsq nx ny mx my ∧
    0 ≤ (cellScatter Real.sqrt Real.rpow c (maxhoriz Real.sqrt nx ny mx my) mx my ix iy e).pfx ∧
    (cellScatter Real.sqrt Real.rpow c (maxhoriz Real.sqrt nx ny mx my) mx my ix iy e).pfx
      ≤ (c.ox : ℝ) := by
  have hd := distsq_le_maxhorizsq nx ny mx my ix iy hmx hmy hix hiy
  have hpos := maxhoriz_pos nx ny mx my hmx hmy
  have hoxR : (0 : ℝ) ≤ (c.ox : ℝ) := by exact_mod_cast hox
  have hs : Real.sqrt ((((ix : Int) - (mx : Int) : Int) : ℝ) * (((ix : Int) - (mx : Int) : Int) : ℝ)
      + (((iy : Int) - (my : Int) : Int) : ℝ) * (((iy : Int) - (my : Int) : Int) : ℝ))
      ≤ maxhoriz Real.sqrt nx ny mx my := Real.sqrt_le_sqrt hd
  refine ⟨hd, ?_, ?_⟩
  · show 0 ≤ (c.ox : ℝ) * Real.sqrt _ / maxhoriz Real.sqrt nx ny mx my
    exact div_nonneg (mul_nonneg hoxR (Real.sqrt_nonneg _)) hpos.le
  · show (c.ox : ℝ) * Real.sqrt _ / maxhoriz Real.sqrt nx ny mx my ≤ (c.ox : ℝ)
    rw [div_le_iff₀ hpos]
    exact mul_le_mul_of_nonneg_left hs hoxR

/-- C15, at the 4x4 raster with the peak at `(1, 1)`, the source cell `(3, 3)` and `ox = 4`. -/
theorem pfx_in_range_witness :
    (1 < 4 ∧ 3 < 4 ∧ (0 : Int) ≤ (⟨4, 5000, 0, 5000, 1⟩ : Config ℝ).ox) ∧
    (cellScatter Real.sqrt Real.rpow ⟨4, 5000, 0, 5000, 1⟩ (maxhoriz Real.sqrt 4 4 1 1) 1 1 3 3
      0).pfx ≤ (((⟨4, 5000, 0, 5000, 1⟩ : Config ℝ).ox : Int) : ℝ) :=
  ⟨⟨by decide, by decide, by decide⟩,
    (pfx_in_range ⟨4, 5000, 0, 5000, 1⟩ 4 4 1 1 3 3 0 (by decide) (by decide) (by decide)
      (by decide) (by decide)).2.2⟩

/-! ## Clamped indices and writes stay inside the image -/

/-- C16. For `ox ≥ 1` and `oy ≥ 1` the clamped indices of every source cell satisfy
`0 ≤ px ≤ ox-1` and `0 ≤ py ≤ oy-1`, and every write that is performed has its column in
`[0, ox-1]` and its row in `[0, oy-1]`. -/
theorem writes_inside_image (c : Config ℝ) (mh : ℝ) (mx my ix iy : Nat) (e : ℝ)
    (s : Scatter ℝ) (hs : s = cellScatter Real.sqrt Real.rpow c mh mx my ix iy e)
    (hox : 1 ≤ c.ox) (hoy : 1 ≤ c.oy) :
    (0 ≤ s.px ∧ s.px ≤ c.ox - 1) ∧ (0 ≤ s.py ∧ s.py ≤ c.oy - 1) ∧
    ∀ w ∈ cellWrites c.ox c.oy s,
      (0 ≤ w.1 ∧ w.1 ≤ c.ox - 1) ∧ (0 ≤ w.2.1 ∧ w.2.1 ≤ c.oy - 1) := by
  have hpx : s.px = min (c.ox - 1) (max 0 (toInt s.pfx)) := by rw [hs]; rfl
  have hpy : s.py = min (c.oy - 1) (max 0 (toInt s.pfy)) := by rw [hs]; rfl
  have hx : 0 ≤ s.px ∧ s.px ≤ c.ox - 1 := by
    rw [hpx]
    exact ⟨le_min (by omega) (le_max_left _ _), min_le_left _ _⟩
  have hy : 0 ≤ s.py ∧ s.py ≤ c.oy - 1 := by
    rw [hpy]
    exact ⟨le_min (by omega) (le_max_left _ _), min_le_left _ _⟩
  refine ⟨hx, hy, ?_⟩
  intro w hw
  unfold cellWrites at hw
  simp only [List.mem_append, List.mem_singleton] at hw
  rcases hw with ((hw | hw) | hw) | hw
  · rw [hw]
    exact ⟨hx, hy⟩
  · split_ifs at hw with g
    · simp only [List.mem_singleton] at hw
      rw [hw]
      exact ⟨⟨by simp only; omega, by simp only; omega⟩, hy⟩
    · simp at hw
  · split_ifs at hw with g
    · simp only [List.mem_singleton] at hw
      rw [hw]
      exact ⟨hx, ⟨by simp only; omega, by simp only; omega⟩⟩
    · simp at hw
  · split_ifs at hw with g
    · simp only [List.mem_singleton] at hw
      rw [hw]
      exact ⟨⟨by simp only; omega, by simp only; omega⟩,
        ⟨by simp only; omega, by simp only; omega⟩⟩
    · simp at hw

/-- C16, at the cell `(3, 3)` of a 4x4 raster with the peak at `(1, 1)`, `ox = 4`,
`oy = 5000`. -/
theorem writes_inside_image_witness :
    ((1 : Int) ≤ (⟨4, 5000, 0, 5000, 1⟩ : Config ℝ).ox ∧
      (1 : Int) ≤ (⟨4, 5000, 0, 5000, 1⟩ : Config ℝ).oy) ∧
    (0 ≤ (cellScatter Real.sqrt Real.rpow ⟨4, 5000, 0, 5000, 1⟩ (Real.sqrt 18) 1 1 3 3 0).px ∧
      (cellScatter Real.sqrt Real.rpow ⟨4, 5000, 0, 5000, 1⟩ (Real.sqrt 18) 1 1 3 3 0).px
        ≤ (⟨4, 5000, 0, 5000, 1⟩ : Config ℝ).ox - 1) :=
  ⟨⟨by decide, by decide⟩,
    (writes_inside_image ⟨4, 5000, 0, 5000, 1⟩ (Real.sqrt 18) 1 1 3 3 0 _ rfl (by decide)
      (by decide)).1⟩
/-! ## Non-zero divisors -/

theorem peakLocator_in_range (nx ny : Nat) (dem : Nat → Nat → ℝ) (hnx : 1 ≤ nx) (hny : 1 ≤ ny) :
    (peakLocator nx ny dem).mx < nx ∧ (peakLocator nx ny dem).my < ny := by
  obtain ⟨-, h2, h3, h4⟩ := peakInv_peakLocator nx ny dem
  rcases h2.lt_or_eq with hpos | hz
  · rcases (h4 hpos).1 with a | ⟨-, a⟩
    · exact a
    · exact absurd a (Nat.not_lt_zero _)
  · obtain ⟨a, b⟩ := h3 hz.symm
    rw [a, b]
    exact ⟨hnx, hny⟩

/-- C18. For a non-empty raster and a peak position inside it (the peak locator returns such a
position), `maxhorizsq ≥ 2`, so `maxhoriz > 0` and the divisor of `pfx` is not zero, and the
default output width `int(maxhoriz + 0.5)` is at least `1`. -/
theorem maxhoriz_nonzero (nx ny : Nat) (hnx : 1 ≤ nx) (hny : 1 ≤ ny) :
    ((∀ dem : Nat → Nat → ℝ, (peakLocator nx ny dem).mx < nx ∧ (peakLocator nx ny dem).my < ny) ∧
    ∀ mx my : Nat, mx < nx → my < ny →
      (2 : ℝ) ≤ maxhorizsq nx ny mx my ∧
      0 < maxhoriz Real.sqrt nx ny mx my ∧
      1 ≤ toInt (maxhoriz Real.sqrt nx ny mx my + 1 / 2) ∧
      ∀ c : Config ℝ, c.ox = 0 →
        1 ≤ (resolveGeometry c (maxhoriz Real.sqrt nx ny mx my)).ox) := by
  refine ⟨fun dem => peakLocator_in_range nx ny dem hnx hny, ?_⟩
  intro mx my hmx hmy
  have h1 := one_le_maxhoriz nx ny mx my hmx hmy
  have hox : 1 ≤ toInt (maxhoriz Real.sqrt nx ny mx my + 1 / 2) := by
    rw [toInt_of_nonneg _ (by linarith), Int.le_floor]
    push_cast
    linarith
  refine ⟨two_le_maxhorizsq nx ny mx my hmx hmy, maxhoriz_pos nx ny mx my hmx hmy, hox, ?_⟩
  intro c hc
  have : (resolveGeometry c (maxhoriz Real.sqrt nx ny mx my)).ox
      = toInt (maxhoriz Real.sqrt nx ny mx my + 1 / 2) := by
    unfold resolveGeometry resolveOy resolveMpp resolveOx
    rw [if_pos hc]
    split_ifs <;> rfl
  rw [this]
  exact hox

/-- C18, at the 1x1 raster with the peak at `(0, 0)`: `maxhorizsq = 2`. -/
theorem maxhoriz_nonzero_witness :
    (1 ≤ 1 ∧ 0 < 1) ∧ (2 : ℝ) ≤ maxhorizsq 1 1 0 0 ∧ 0 < maxhoriz Real.sqrt 1 1 0 0 :=
  ⟨by decide,
    ((maxhoriz_nonzero 1 1 (by decide) (by decide)).2 0 0 (by decide) (by decide)).1,
    ((maxhoriz_nonzero 1 1 (by decide) (by decide)).2 0 0 (by decide) (by decide)).2.1⟩

theorem fmod_nonneg_range (x : ℝ) (h : 0 ≤ x) : 0 ≤ fmod x 360 ∧ fmod x 360 < 360 := by
  have hq : (0 : ℝ) ≤ x / 360 := by positivity
  have h1 := Int.floor_le (x / 360)
  have h2 := Int.lt_floor_add_one (x / 360)
  unfold fmod
  rw [toInt_of_nonneg _ hq]
  rw [le_div_iff₀ (by norm_num)] at h1
  rw [div_lt_iff₀ (by norm_num)] at h2
  constructor <;> linarith

theorem findIntersection_fmod (nx ny px py alpha : ℝ) (h : 0 ≤ alpha) :
    findIntersection Real.tan Real.pi px py alpha nx ny =
      findIntersection Real.tan Real.pi px py (fmod alpha 360) nx ny := by
  obtain ⟨h0, h1⟩ := fmod_nonneg_range alpha h
  simp only [findIntersection, fmod_of_lt (fmod alpha 360) h0 h1]

/-- What does hold outside `[0, 360)`: for every angle `alpha ≥ 0` (also `alpha ≥ 360`) and
every point strictly inside the box the result lies on the boundary and is not the original
point. -/
theorem findIntersection_nonneg_angle (nx ny px py alpha : ℝ)
    (hpx0 : 0 < px) (hpx : px < nx) (hpy0 : 0 < py) (hpy : py < ny) (h : 0 ≤ alpha) :
    OnBoundary nx ny (findIntersection Real.tan Real.pi px py alpha nx ny) ∧
      findIntersection Real.tan Real.pi px py alpha nx ny ≠ (px, py) := by
  obtain ⟨h0, h1⟩ := fmod_nonneg_range alpha h
  rw [findIntersection_fmod nx ny px py alpha h]
  have hb := (findIntersection_in_range nx ny px py (fmod alpha 360) hpx0 hpx hpy0 hpy h0 h1).1
  refine ⟨hb, ?_⟩
  intro he
  rw [he] at hb
  rcases hb with ⟨hx | hx, -, -⟩ | ⟨hy | hy, -, -⟩
  · exact hpx0.ne.symm hx
  · exact hpx.ne hx
  · exact hpy0.ne.symm hy
  · exact hpy.ne hy

theorem fmod_neg_45 : fmod (-45 : ℝ) 360 = -45 := by
  have h : toInt ((-45 : ℝ) / 360) = 0 := by
    have hn : ¬ (0 : ℝ) ≤ -45 / 360 := by norm_num
    simp only [toInt, if_neg hn]
    rw [Int.ceil_eq_iff]
    norm_num
  simp [fmod, h]

/-- C11: the code at `alpha = -45` for the point `(25, 25)` in the box `100 x 100`.
`fmod(-45, 360) = -45`, so `alpharad = -pi/4` is not in `[0, 2 pi)`. The right-edge test is
entered (`alpharad < pi/2`) and gives `y = 25 - 75 = -50`, out of range; the left, top and
bottom tests are not entered; the fallback returns the original point `(25, 25)`, which is not
on the boundary. -/
theorem findIntersection_negative_angle_fallback :
    fmod (-45 : ℝ) 360 * Real.pi / 180 = -(Real.pi / 4) ∧
    ¬ (0 ≤ fmod (-45 : ℝ) 360 * Real.pi / 180) ∧
    findIntersection Real.tan Real.pi 25 25 (-45) 100 100 = (25, 25) ∧
    ¬ OnBoundary 100 100 (findIntersection Real.tan Real.pi 25 25 (-45) 100 100) := by
  have hpi := Real.pi_pos
  have ha : fmod (-45 : ℝ) 360 * Real.pi / 180 = -(Real.pi / 4) := by
    rw [fmod_neg_45]
    ring
  have ht : Real.tan (-(Real.pi / 4)) = -1 := by
    rw [Real.tan_neg, Real.tan_pi_div_four]
  have hfi : findIntersection Real.tan Real.pi 25 25 (-45) 100 100 = (25, 25) := by
    simp only [findIntersection, ha, ht]
    rw [if_neg (fun h => by norm_num at h), if_neg (fun h => by linarith [h.1.1]),
      if_neg (fun h => by linarith [h.1.1]), if_neg (fun h => by linarith [h.1.1])]
  refine ⟨ha, ?_, hfi, ?_⟩
  · rw [ha]
    linarith
  · rw [hfi]
    unfold OnBoundary
    norm_num

/-! ## The end-to-end scenario -/

theorem peakLocator_scenario : peakLocator 4 4 (scenarioDem : Nat → Nat → ℝ) = ⟨1, 1, 1⟩ := by
  norm_num [peakLocator, forLoop, peakStep, scenarioDem]

theorem maxhoriz_scenario : maxhoriz Real.sqrt 4 4 1 1 = Real.sqrt 18 := by
  simp [maxhoriz, maxhorizsq]
  norm_num

theorem toInt_sqrt_eighteen : toInt (Real.sqrt 18 + 1 / 2) = 4 := by
  have h1 : (7 / 2 : ℝ) ≤ Real.sqrt 18 := by
    rw [Real.le_sqrt' (by norm_num)]
    norm_num
  have h2 : Real.sqrt 18 < 9 / 2 := by
    rw [Real.sqrt_lt' (by norm_num)]
    norm_num
  apply toInt_eq_of_bounds _ 4 (by positivity)
  · push_cast
    linarith
  · push_cast
    linarith

theorem resolvedConfig_scenario :
    resolvedConfig Real.sqrt (defaultConfig : Config ℝ) 4 4 scenarioDem
      = ⟨4, 5000, 0, 5000, 1⟩ := by
  have h : toInt ((5000 : ℝ) / 1 + 1 / 2) = 5000 :=
    toInt_eq_of_bounds _ 5000 (by norm_num) (by norm_num) (by norm_num)
  simp only [resolvedConfig, peakLocator_scenario, maxhoriz_scenario, resolveGeometry, resolveOx,
    resolveMpp, resolveOy, defaultConfig]
  norm_num at h ⊢
  exact ⟨toInt_sqrt_eighteen, h⟩

/-- C12, as stated, fails: on the scenario raster under the default configuration `maxhoriz` is
not `sqrt 8` and the derived output width is not `3`. -/
theorem scenario_maxhoriz_not_sqrt_eight :
    maxhoriz Real.sqrt 4 4 (peakLocator 4 4 (scenarioDem : Nat → Nat → ℝ)).mx
        (peakLocator 4 4 (scenarioDem : Nat → Nat → ℝ)).my ≠ Real.sqrt 8 ∧
    (resolvedConfig Real.sqrt (defaultConfig : Config ℝ) 4 4 scenarioDem).ox ≠ 3 := by
  rw [peakLocator_scenario, resolvedConfig_scenario, maxhoriz_scenario]
  refine ⟨?_, by decide⟩
  intro h
  rw [Real.sqrt_inj (by norm_num) (by norm_num)] at h
  norm_num at h

/-- C12, amended. On the scenario raster under the default configuration the peak is `(1, 1)`,
`maxhoriz` is `sqrt((4-1)^2 + (4-1)^2) = sqrt 18` (about `4.24`: the offsets `nx - mx` and
`ny - my` to the far edges, not to the far corner cell `(3, 3)`), and the derived output width
is `ox = 4`. -/
theorem scenario_maxhoriz_and_ox :
    (peakLocator 4 4 (scenarioDem : Nat → Nat → ℝ)).mx = 1 ∧
    (peakLocator 4 4 (scenarioDem : Nat → Nat → ℝ)).my = 1 ∧
    (maxhorizsq 4 4 1 1 : ℝ) = (4 - 1) ^ 2 + (4 - 1) ^ 2 ∧
    maxhoriz Real.sqrt 4 4 (peakLocator 4 4 (scenarioDem : Nat → Nat → ℝ)).mx
        (peakLocator 4 4 (scenarioDem : Nat → Nat → ℝ)).my = Real.sqrt 18 ∧
    (4 : ℝ) < Real.sqrt 18 ∧ Real.sqrt 18 < 9 / 2 ∧
    (resolvedConfig Real.sqrt (defaultConfig : Config ℝ) 4 4 scenarioDem).ox = 4 := by
  rw [peakLocator_scenario, resolvedConfig_scenario, maxhoriz_scenario]
  refine ⟨rfl, rfl, ?_, rfl, ?_, ?_, rfl⟩
  · simp [maxhorizsq]
    norm_num
  · rw [Real.lt_sqrt (by norm_num)]
    norm_num
  · rw [Real.sqrt_lt' (by norm_num)]
    norm_num

/-! ## Accumulation order -/

theorem scanOrder_two_three :
    scanOrder 2 3 = [(0, 0), (0, 1), (0, 2), (1, 0), (1, 1), (1, 2)] :=
  rfl

theorem mem_forLoop_snoc (ix n : Nat) (l : List (Nat × Nat)) (q : Nat × Nat) :
    q ∈ forLoop n (fun iy k => k ++ [(ix, iy)]) l ↔ q ∈ l ∨ (q.1 = ix ∧ q.2 < n) := by
  induction n with
  | zero => simp [forLoop]
  | succ n ih =>
    show q ∈ (forLoop n (fun iy k => k ++ [(ix, iy)]) l) ++ [(ix, n)] ↔ _
    rw [List.mem_append, ih, List.mem_singleton, Prod.ext_iff]
    constructor
    · rintro ((h | ⟨h1, h2⟩) | ⟨h1, h2⟩)
      · exact Or.inl h
      · exact Or.inr ⟨h1, Nat.lt_succ_of_lt h2⟩
      · exact Or.inr ⟨h1, h2 ▸ Nat.lt_succ_self _⟩
    · rintro (h | ⟨h1, h2⟩)
      · exact Or.inl (Or.inl h)
      · rcases Nat.lt_succ_iff_lt_or_eq.mp h2 with h3 | h3
        · exact Or.inl (Or.inr ⟨h1, h3⟩)
        · exact Or.inr ⟨h1, h3⟩

/-- The scan order lists exactly the cells of the raster. -/
theorem mem_scanOrder (nx ny : Nat) (q : Nat × Nat) :
    q ∈ scanOrder nx ny ↔ q.1 < nx ∧ q.2 < ny := by
  unfold scanOrder
  induction nx with
  | zero => simp [forLoop]
  | succ n ih =>
    show q ∈ forLoop ny (fun iy k => k ++ [(n, iy)])
      (forLoop n (fun ix l => forLoop ny (fun iy k => k ++ [(ix, iy)]) l) []) ↔ _
    rw [mem_forLoop_snoc, ih]
    constructor
    · rintro (⟨h1, h2⟩ | ⟨h1, h2⟩)
      · exact ⟨Nat.lt_succ_of_lt h1, h2⟩
      · exact ⟨h1 ▸ Nat.lt_succ_self _, h2⟩
    · rintro ⟨h1, h2⟩
      rcases Nat.lt_succ_iff_lt_or_eq.mp h1 with h3 | h3
      · exact Or.inl ⟨h3, h2⟩
      · exact Or.inr ⟨h3, h2⟩

theorem foldl_addAt_apply (ws : List (Int × Int × ℝ)) (img : Int → Int → ℝ) (i j : Int) :
    (ws.foldl addAt img) i j = img i j + writtenAt ws i j := by
  induction ws generalizing img with
  | nil => simp [writtenAt]
  | cons w ws ih =>
    rw [List.foldl_cons, ih]
    simp only [writtenAt, List.map_cons, List.sum_cons, addAt]
    split_ifs <;> ring

theorem renderCell_apply (c : Config ℝ) (mh : ℝ) (mx my : Nat) (dem : Nat → Nat → ℝ)
    (ix iy : Nat) (img : Int → Int → ℝ) (i j : Int) :
    renderCell Real.sqrt Real.rpow c mh mx my dem ix iy img i j =
      img i j + writtenAt (cellWrites c.ox c.oy
        (cellScatter Real.sqrt Real.rpow c mh mx my ix iy (dem ix iy))) i j := by
  unfold renderCell
  exact foldl_addAt_apply _ img i j

theorem renderCell_comm (c : Config ℝ) (mh : ℝ) (mx my : Nat) (dem : Nat → Nat → ℝ)
    (a b : Nat × Nat) (img : Int → Int → ℝ) :
    renderCell Real.sqrt Real.rpow c mh mx my dem b.1 b.2
        (renderCell Real.sqrt Real.rpow c mh mx my dem a.1 a.2 img) =
      renderCell Real.sqrt Real.rpow c mh mx my dem a.1 a.2
        (renderCell Real.sqrt Real.rpow c mh mx my dem b.1 b.2 img) := by
  funext i j
  rw [renderCell_apply, renderCell_apply, renderCell_apply, renderCell_apply]
  ring

theorem forLoop_snoc_foldl {σ : Type} (g : Nat × Nat → σ → σ) (ix : Nat) (n : Nat)
    (l : List (Nat × Nat)) (s : σ) :
    (forLoop n (fun iy k => k ++ [(ix, iy)]) l).foldl (fun t q => g q t) s =
      forLoop n (fun iy t => g (ix, iy) t) (l.foldl (fun t q => g q t) s) := by
  induction n with
  | zero => rfl
  | succ n ih =>
    show ((forLoop n (fun iy k => k ++ [(ix, iy)]) l) ++ [(ix, n)]).foldl (fun t q => g q t) s =
      g (ix, n) (forLoop n (fun iy t => g (ix, iy) t) (l.foldl (fun t q => g q t) s))
    rw [List.foldl_append, ih]
    rfl

theorem scanOrder_foldl {σ : Type} (g : Nat × Nat → σ → σ) (nx ny : Nat) (s : σ) :
    (scanOrder nx ny).foldl (fun t q => g q t) s =
      forLoop nx (fun ix t => forLoop ny (fun iy u => g (ix, iy) u) t) s := by
  unfold scanOrder
  induction nx with
  | zero => rfl
  | succ n ih =>
    show (forLoop ny (fun iy k => k ++ [(n, iy)])
        (forLoop n (fun ix l => forLoop ny (fun iy k => k ++ [(ix, iy)]) l) [])).foldl
          (fun t q => g q t) s =
      forLoop ny (fun iy u => g (n, iy) u)
        (forLoop n (fun ix t => forLoop ny (fun iy u => g (ix, iy) u) t) s)
    rw [forLoop_snoc_foldl, ih]

theorem render_eq_renderCells (c : Config ℝ) (mh : ℝ) (mx my nx ny : Nat)
    (dem : Nat → Nat → ℝ) :
    render Real.sqrt Real.rpow c mh mx my nx ny dem =
      renderCells Real.sqrt Real.rpow c mh mx my dem (scanOrder nx ny) (fun _ _ => 0) := by
  unfold render renderCells
  exact (scanOrder_foldl
    (fun q im => renderCell Real.sqrt Real.rpow c mh mx my dem q.1 q.2 im) nx ny _).symm

/-- C17. Over the reals the accumulated histogram does not depend on the order of the source
cells: rendering the cells of any permutation of the scan order, from the zero image and with
the same peak and calibration, gives the image of the render loop, cell by cell. -/
theorem render_order_independent (c : Config ℝ) (mh : ℝ) (mx my nx ny : Nat)
    (dem : Nat → Nat → ℝ) (cells : List (Nat × Nat)) (h : cells.Perm (scanOrder nx ny)) :
    renderCells Real.sqrt Real.rpow c mh mx my dem cells (fun _ _ => 0) =
      render Real.sqrt Real.rpow c mh mx my nx ny dem ∧
    ∀ i j : Int, renderCells Real.sqrt Real.rpow c mh mx my dem cells (fun _ _ => 0) i j =
      render Real.sqrt Real.rpow c mh mx my nx ny dem i j := by
  have key : renderCells Real.sqrt Real.rpow c mh mx my dem cells (fun _ _ => 0) =
      render Real.sqrt Real.rpow c mh mx my nx ny dem := by
    rw [render_eq_renderCells]
    unfold renderCells
    exact List.Perm.foldl_eq' h
      (fun a _ b _ img => renderCell_comm c mh mx my dem a b img) _
  exact ⟨key, fun i j => by rw [key]⟩

/-- C17, for the 2x3 raster visited in the reverse of the scan order. -/
theorem render_order_independent_witness :
    (scanOrder 2 3).reverse.Perm (scanOrder 2 3) ∧
    renderCells Real.sqrt Real.rpow ⟨4, 5000, 0, 5000, 1⟩ (Real.sqrt 18) 1 1
        (fun ix iy => ((ix + iy : Nat) : ℝ) / 10) (scanOrder 2 3).reverse (fun _ _ => 0) =
      render Real.sqrt Real.rpow ⟨4, 5000, 0, 5000, 1⟩ (Real.sqrt 18) 1 1 2 3
        (fun ix iy => ((ix + iy : Nat) : ℝ) / 10) :=
  ⟨List.reverse_perm _,
    (render_order_independent ⟨4, 5000, 0, 5000, 1⟩ (Real.sqrt 18) 1 1 2 3
      (fun ix iy => ((ix + iy : Nat) : ℝ) / 10) (scanOrder 2 3).reverse
      (List.reverse_perm _)).1⟩

/-! ## The end-to-end scenario: the cell of the peak -/

theorem writtenAt_cellWrites_of_row (ox oy : Int) (s : Scatter ℝ) (i j : Int)
    (h1 : j ≠ s.py) (h2 : j ≠ s.py + 1) : writtenAt (cellWrites ox oy s) i j = 0 := by
  unfold writtenAt cellWrites
  by_cases gx : s.px + 1 < ox <;> by_cases gy : s.py + 1 < oy <;>
    simp [gx, gy, h1, h2]

theorem toInt_one_half : toInt ((1 : ℝ) / 2) = 0 :=
  toInt_eq_of_bounds _ 0 (by norm_num) (by norm_num) (by norm_num)

theorem renderCell_scenario_zero (mh : ℝ) (mx my ix iy : Nat) (h : (ix, iy) ≠ (1, 1))
    (img : Int → Int → ℝ) (i : Int) :
    renderCell Real.sqrt Real.rpow ⟨4, 5000, 0, 5000, 1⟩ mh mx my scenarioDem ix iy img i 4999
      = img i 4999 := by
  have hd : (scenarioDem ix iy : ℝ) = 0 := by
    unfold scenarioDem
    rw [if_neg]
    rintro ⟨rfl, rfl⟩
    exact h rfl
  have hpy : (cellScatter Real.sqrt Real.rpow ⟨4, 5000, 0, 5000, 1⟩ mh mx my ix iy
      (scenarioDem ix iy)).py = 0 := by
    rw [hd]
    have h0 : (1 : ℝ) / 2 + (0 + 0 * (5000 - 0)) / 1 = 1 / 2 := by norm_num
    simp only [cellScatter, h0, toInt_one_half]
    decide
  rw [renderCell_apply, writtenAt_cellWrites_of_row _ _ _ _ _ (by rw [hpy]; decide)
    (by rw [hpy]; decide), add_zero]

theorem renderCell_scenario_peak (img : Int → Int → ℝ) :
    renderCell Real.sqrt Real.rpow ⟨4, 5000, 0, 5000, 1⟩ (Real.sqrt 18) 1 1 scenarioDem 1 1 img
      0 4999 = img 0 4999 + -(1 / 2) := by
  have hd : (scenarioDem 1 1 : ℝ) = 1 := by simp [scenarioDem]
  have ht : toInt ((1 : ℝ) / 2 + (0 + 1 * (5000 - 0)) / 1) = 5000 :=
    toInt_eq_of_bounds _ 5000 (by norm_num) (by norm_num) (by norm_num)
  have hs : cellScatter Real.sqrt Real.rpow (⟨4, 5000, 0, 5000, 1⟩ : Config ℝ) (Real.sqrt 18)
      1 1 1 1 1 = ⟨0, 10001 / 2, 0, 4999, 1, 0, 3 / 2⟩ := by
    simp only [cellScatter, ht]
    simp [toInt_zero]
    norm_num
  rw [renderCell_apply, hd, hs]
  norm_num [writtenAt, cellWrites]

/-- C13: the code on the scenario raster under the default configuration. The output is
`4 x 5000` with `mpp = 1`. The peak cell maps to column `px = 0` and to row `py = 4999` with
`fracy = 1.5`; its write to `(0, 4999)` is `-0.5`, no other source cell writes to row `4999`,
and the tone-mapped value of that cell is `1.3^6 = 4.826809`, above the value `1` of an
untouched cell. -/
theorem scenario_peak_cell_exceeds_one :
    (runScatter Real.sqrt Real.rpow (defaultConfig : Config ℝ) 4 4 scenarioDem 1 1).px = 0 ∧
    (runScatter Real.sqrt Real.rpow (defaultConfig : Config ℝ) 4 4 scenarioDem 1 1).py = 4999 ∧
    (runScatter Real.sqrt Real.rpow (defaultConfig : Config ℝ) 4 4 scenarioDem 1 1).fracy
      = 3 / 2 ∧
    (pipeline Real.sqrt Real.rpow (defaultConfig : Config ℝ) 4 4 scenarioDem).img 0 4999
      = (13 / 10) ^ 6 ∧
    ¬ ((pipeline Real.sqrt Real.rpow (defaultConfig : Config ℝ) 4 4 scenarioDem).img 0 4999
      < 1) := by
  have ht : toInt ((1 : ℝ) / 2 + (0 + 1 * (5000 - 0)) / 1) = 5000 :=
    toInt_eq_of_bounds _ 5000 (by norm_num) (by norm_num) (by norm_num)
  have hd : (scenarioDem 1 1 : ℝ) = 1 := by simp [scenarioDem]
  have hrc : resolveGeometry (defaultConfig : Config ℝ) (Real.sqrt 18) = ⟨4, 5000, 0, 5000, 1⟩ := by
    have := resolvedConfig_scenario
    simp only [resolvedConfig, peakLocator_scenario, maxhoriz_scenario] at this
    exact this
  have hs : runScatter Real.sqrt Real.rpow (defaultConfig : Config ℝ) 4 4 scenarioDem 1 1
      = ⟨0, 10001 / 2, 0, 4999, 1, 0, 3 / 2⟩ := by
    simp only [runScatter, peakLocator_scenario, maxhoriz_scenario, hrc, hd, cellScatter, ht]
    simp [toInt_zero]
    norm_num
  have hacc : render Real.sqrt Real.rpow ⟨4, 5000, 0, 5000, 1⟩ (Real.sqrt 18) 1 1 4 4
      (scenarioDem : Nat → Nat → ℝ) 0 4999 = -(1 / 2) := by
    simp only [render, forLoop]
    rw [renderCell_scenario_zero _ _ _ 3 3 (by decide), renderCell_scenario_zero _ _ _ 3 2 (by decide),
      renderCell_scenario_zero _ _ _ 3 1 (by decide), renderCell_scenario_zero _ _ _ 3 0 (by decide),
      renderCell_scenario_zero _ _ _ 2 3 (by decide), renderCell_scenario_zero _ _ _ 2 2 (by decide),
      renderCell_scenario_zero _ _ _ 2 1 (by decide), renderCell_scenario_zero _ _ _ 2 0 (by decide),
      renderCell_scenario_zero _ _ _ 1 3 (by decide), renderCell_scenario_zero _ _ _ 1 2 (by decide),
      renderCell_scenario_peak,
      renderCell_scenario_zero _ _ _ 1 0 (by decide), renderCell_scenario_zero _ _ _ 0 3 (by decide),
      renderCell_scenario_zero _ _ _ 0 2 (by decide), renderCell_scenario_zero _ _ _ 0 1 (by decide),
      renderCell_scenario_zero _ _ _ 0 0 (by decide)]
    norm_num
  have himg : (pipeline Real.sqrt Real.rpow (defaultConfig : Config ℝ) 4 4 scenarioDem).img
      0 4999 = (13 / 10) ^ 6 := by
    rw [pipeline_img_eq, resolvedConfig_scenario, peakLocator_scenario, maxhoriz_scenario, hacc]
    norm_num [toneMap, toneVal, toneFinal]
  rw [hs, himg]
  refine ⟨rfl, rfl, rfl, rfl, ?_⟩
  norm_num

end MountainPlots
